import Mathlib

/-!
Shallow embedding of the St. Paul crime-map single-page application
(`src/src/App.vue`).

Modelling conventions:
* JavaScript numbers are modelled as `ℚ`; integer-valued identifiers and
  crime codes as `ℤ`; counters as `ℕ`.
* JavaScript strings are Lean `String`s.  `String.prototype.toLowerCase`
  is modelled by mapping `Char.toLower` (they agree on ASCII text);
  `localeCompare`-based sorting is modelled as code-point lexicographic
  comparison (they agree on the same-case ASCII type names this data
  uses); `text.includes(k)` is a substring test.
* `Map` objects and plain-object caches are association lists with the
  same insertion-order / update-in-place semantics.
* Network effects are made explicit: the server's reply is an argument,
  and the request that would be issued (if any) is part of the result,
  so "no network call" is `request = none`.
-/

namespace CrimeApp

/-- Whitespace class used by JavaScript `trim` and the regex class `\s`
(its ASCII part; exotic Unicode spaces are not modelled). -/
def jsIsSpace (c : Char) : Bool :=
  c = ' ' || c = '\t' || c = '\n' || c = '\x0b' || c = '\x0c' || c = '\r'

/-- JavaScript `String.prototype.trim` on the character list. -/
def jsTrimList (l : List Char) : List Char :=
  ((l.dropWhile jsIsSpace).reverse.dropWhile jsIsSpace).reverse

/-- JavaScript `String.prototype.trim`. -/
def jsTrim (s : String) : String :=
  ⟨jsTrimList s.data⟩

/-- JavaScript `String.prototype.toLowerCase` (ASCII fragment). -/
def lowerAscii (s : String) : String :=
  ⟨s.data.map Char.toLower⟩

/-- Decidable check that `p` is a leading segment of `l`. -/
def isLeading : List Char → List Char → Bool
  | [], _ => true
  | _ :: _, [] => false
  | a :: p, b :: l => a == b && isLeading p l

/-- Decidable check that `sub` occurs contiguously inside `l`
(JavaScript `String.prototype.includes`). -/
def containsSub : List Char → List Char → Bool
  | [], sub => sub.isEmpty
  | b :: t, sub => isLeading sub (b :: t) || containsSub t sub

/-- JavaScript `text.includes(k)`. -/
def jsIncludes (text k : String) : Bool :=
  containsSub text.data k.data

/-- Specification-level statement that string `k` occurs as a contiguous
substring of `text`. -/
def occursIn (k text : String) : Prop :=
  ∃ u v, text.data = u ++ k.data ++ v

theorem isLeading_iff (p : List Char) : ∀ l, isLeading p l = true ↔ ∃ t, l = p ++ t := by
  induction p with
  | nil => intro l; simp [isLeading]
  | cons a p ih =>
    intro l
    cases l with
    | nil => simp [isLeading]
    | cons b l =>
      simp only [isLeading, Bool.and_eq_true, beq_iff_eq, ih, List.cons_append,
        List.cons.injEq]
      constructor
      · rintro ⟨hab, t, ht⟩
        exact ⟨t, hab.symm, ht⟩
      · rintro ⟨t, hba, ht⟩
        exact ⟨hba.symm, t, ht⟩

theorem containsSub_iff (l sub : List Char) :
    containsSub l sub = true ↔ ∃ u v, l = u ++ sub ++ v := by
  induction l with
  | nil =>
    simp only [containsSub, List.isEmpty_iff]
    constructor
    · rintro rfl
      exact ⟨[], [], rfl⟩
    · rintro ⟨u, v, huv⟩
      rcases List.append_eq_nil.1 huv.symm with ⟨h1, h2⟩
      exact (List.append_eq_nil.1 h1).2
  | cons b t ih =>
    simp only [containsSub, Bool.or_eq_true, isLeading_iff, ih]
    constructor
    · rintro (⟨v, hv⟩ | ⟨u, v, huv⟩)
      · exact ⟨[], v, by simpa using hv⟩
      · exact ⟨b :: u, v, by simp [huv]⟩
    · rintro ⟨u, v, huv⟩
      cases u with
      | nil => exact Or.inl ⟨v, by simpa using huv⟩
      | cons x u =>
        rcases List.cons.injEq .. ▸ huv with ⟨rfl, ht⟩
        exact Or.inr ⟨u, v, ht⟩

theorem jsIncludes_iff (text k : String) : jsIncludes text k = true ↔ occursIn k text :=
  containsSub_iff text.data k.data

/-! ### Viewport tracker: the fixed St. Paul bounding box and `clampLatLng`
(`App.vue` lines 12-25 and 131-140). -/

/-- Latitude of the south-east corner `map.bounds.se.lat`. -/
def seLat : ℚ := 44.883658

/-- Latitude of the north-west corner `map.bounds.nw.lat`. -/
def nwLat : ℚ := 45.008206

/-- Longitude of the north-west corner `map.bounds.nw.lng`. -/
def nwLng : ℚ := -93.217977

/-- Longitude of the south-east corner `map.bounds.se.lng`. -/
def seLng : ℚ := -92.993787

/-- `clampLatLng(lat, lng)` from `App.vue`: `minLat = se.lat`,
`maxLat = nw.lat`, `minLng = nw.lng`, `maxLng = se.lng`, and each
coordinate becomes `Math.min(Math.max(x, minX), maxX)`. -/
def clampLatLng (lat lng : ℚ) : ℚ × ℚ :=
  (min (max lat seLat) nwLat, min (max lng nwLng) seLng)

/-! ### Crime categorization (`categorizeCrime`, `App.vue` lines 375-413). -/

/-- Keyword list checked first by `categorizeCrime`. -/
def violentKeywords : List String :=
  ["murder", "manslaughter", "rape", "robbery", "assault", "kidnap",
   "homicide", "weapon", "threat", "domestic"]

/-- Keyword list checked second by `categorizeCrime`. -/
def propertyKeywords : List String :=
  ["burglary", "theft", "robbery", "arson", "vandalism",
   "damage to property", "property", "motor vehicle theft",
   "shoplifting", "stolen", "fraud", "forgery"]

/-- `categorizeCrime(incidentType, incidentText)` from `App.vue`:
lower-case the space-joined concatenation, then test the violent
keywords, then the property keywords.  (`incidentText || ''` is the
identity on strings, the only falsy string being `''` itself.) -/
def categorizeCrime (incidentType incidentText : String) : String :=
  let text := lowerAscii (incidentType ++ " " ++ incidentText)
  if violentKeywords.any (fun k => jsIncludes text k) then "violent"
  else if propertyKeywords.any (fun k => jsIncludes text k) then "property"
  else "other"

theorem anyKeyword_iff (ks : List String) (text : String) :
    (ks.any (fun k => jsIncludes text k) = true) ↔ ∃ k ∈ ks, occursIn k text := by
  rw [List.any_eq_true]
  constructor
  · rintro ⟨k, hk, h⟩
    exact ⟨k, hk, (jsIncludes_iff text k).1 h⟩
  · rintro ⟨k, hk, h⟩
    exact ⟨k, hk, (jsIncludes_iff text k).2 h⟩

/-- C1: for every incident_type string and incident description,
`categorizeCrime` lower-cases the combination of the two and returns
"violent" if any violent keyword occurs as a substring; otherwise
"property" if any property keyword occurs as a substring; otherwise
"other"; and because the violent check runs first, any text containing
"robbery" yields "violent". -/
theorem c1_categorizeCrime_spec (ty desc : String) :
    (categorizeCrime ty desc = "violent" ↔
      ∃ k ∈ violentKeywords, occursIn k (lowerAscii (ty ++ " " ++ desc))) ∧
    (categorizeCrime ty desc = "property" ↔
      (¬ ∃ k ∈ violentKeywords, occursIn k (lowerAscii (ty ++ " " ++ desc))) ∧
      ∃ k ∈ propertyKeywords, occursIn k (lowerAscii (ty ++ " " ++ desc))) ∧
    (categorizeCrime ty desc = "other" ↔
      (¬ ∃ k ∈ violentKeywords, occursIn k (lowerAscii (ty ++ " " ++ desc))) ∧
      ¬ ∃ k ∈ propertyKeywords, occursIn k (lowerAscii (ty ++ " " ++ desc))) ∧
    (occursIn "robbery" (lowerAscii (ty ++ " " ++ desc)) →
      categorizeCrime ty desc = "violent") := by
  have hvne : ("violent" : String) ≠ "property" := by decide
  have hone : ("other" : String) ≠ "violent" := by decide
  have hone' : ("other" : String) ≠ "property" := by decide
  have hpne : ("property" : String) ≠ "violent" := by decide
  set text := lowerAscii (ty ++ " " ++ desc) with htext
  have hv := anyKeyword_iff violentKeywords text
  have hp := anyKeyword_iff propertyKeywords text
  have hrob : occursIn "robbery" text → ∃ k ∈ violentKeywords, occursIn k text :=
    fun h => ⟨"robbery", by simp [violentKeywords], h⟩
  by_cases h1 : violentKeywords.any (fun k => jsIncludes text k) = true
  · have hres : categorizeCrime ty desc = "violent" := by
      simp only [categorizeCrime, ← htext, h1, if_true]
    refine ⟨by simp [hres, hv.1 h1], ?_, ?_, fun _ => hres⟩
    · simp only [hres]
      exact ⟨fun h => absurd h hvne, fun ⟨hnv, _⟩ => absurd (hv.1 h1) hnv⟩
    · simp only [hres]
      exact ⟨fun h => absurd h.symm hone, fun ⟨hnv, _⟩ => absurd (hv.1 h1) hnv⟩
  · have hnv : ¬ ∃ k ∈ violentKeywords, occursIn k text := fun h => h1 (hv.2 h)
    by_cases h2 : propertyKeywords.any (fun k => jsIncludes text k) = true
    · have hres : categorizeCrime ty desc = "property" := by
        simp [categorizeCrime, ← htext, h1, h2]
      refine ⟨?_, by simp [hres, hnv, hp.1 h2], ?_, fun h => absurd (hrob h) hnv⟩
      · simp only [hres]
        exact ⟨fun h => absurd h hpne, fun h => absurd h hnv⟩
      · simp only [hres]
        exact ⟨fun h => absurd h.symm hone', fun ⟨_, hnp⟩ => absurd (hp.1 h2) hnp⟩
    · have hnp : ¬ ∃ k ∈ propertyKeywords, occursIn k text := fun h => h2 (hp.2 h)
      have hres : categorizeCrime ty desc = "other" := by
        simp [categorizeCrime, ← htext, h1, h2]
      refine ⟨?_, ?_, by simp [hres, hnv, hnp], fun h => absurd (hrob h) hnv⟩
      · simp only [hres]
        exact ⟨fun h => absurd h hone, fun h => absurd h hnv⟩
      · simp only [hres]
        exact ⟨fun h => absurd h hone', fun h => absurd h.2 hnp⟩

/-- C1 witness: the scenario incident text "Aggravated Robbery" with
type "Robbery" is categorized as violent, via the robbery clause of
`c1_categorizeCrime_spec`. -/
theorem c1_categorizeCrime_spec_witness :
    categorizeCrime "Robbery" "Aggravated Robbery" = "violent" :=
  (c1_categorizeCrime_spec "Robbery" "Aggravated Robbery").2.2.2
    ⟨[], " aggravated robbery".data, by decide⟩

/-- C7: for every latitude/longitude pair, `clampLatLng` returns a
coordinate inside the fixed bounding box (latitude in
`[seLat, nwLat]`, longitude in `[nwLng, seLng]`), and clamping is
idempotent. -/
theorem c7_clampLatLng_bounds_idempotent (lat lng : ℚ) :
    seLat ≤ (clampLatLng lat lng).1 ∧ (clampLatLng lat lng).1 ≤ nwLat ∧
    nwLng ≤ (clampLatLng lat lng).2 ∧ (clampLatLng lat lng).2 ≤ seLng ∧
    clampLatLng (clampLatLng lat lng).1 (clampLatLng lat lng).2 = clampLatLng lat lng := by
  have hlat : seLat ≤ nwLat := by norm_num [seLat, nwLat]
  have hlng : nwLng ≤ seLng := by norm_num [nwLng, seLng]
  unfold clampLatLng
  refine ⟨le_min (le_max_right _ _) hlat, min_le_right _ _,
          le_min (le_max_right _ _) hlng, min_le_right _ _, ?_⟩
  dsimp only
  congr 1
  · rw [max_eq_left (le_min (le_max_right _ _) hlat), min_eq_left (min_le_right _ _)]
  · rw [max_eq_left (le_min (le_max_right _ _) hlng), min_eq_left (min_le_right _ _)]

/-! ### Data model (`App.vue` reactive state). -/

/-- One crime classification row of `GET /codes`. -/
structure Code where
  code : ℤ
  type : String
deriving DecidableEq

/-- One entry of `incidentTypeGroups` (type, its codes, checkbox state). -/
structure IncidentTypeGroup where
  type : String
  codes : List ℤ
  selected : Bool
deriving DecidableEq

/-- One entry of `neighborhoods`; `popup` is the text bound to the
neighborhood's map marker popup (the Leaflet marker object itself is UI
plumbing and is not modelled). -/
structure Neighborhood where
  id : ℤ
  name : String
  lat : ℚ
  lng : ℚ
  crimes : ℕ
  selected : Bool
  popup : String
deriving DecidableEq

/-- One raw incident row as returned by `GET /incidents`. -/
structure IncidentRow where
  case_number : String
  date : String
  time : String
  code : ℤ
  incident : String
  police_grid : ℤ
  neighborhood_number : ℤ
  block : String
deriving DecidableEq

/-- A processed incident (row plus the derived display fields). -/
structure Incident extends IncidentRow where
  incident_type : String
  neighborhood_name : String
  category : String
deriving DecidableEq

/-- The `filters` reactive object. -/
structure Filters where
  dateStart : String
  dateEnd : String
  maxIncidents : ℚ

/-! ### Association-list model of JavaScript `Map` from id to count. -/

/-- `counts.has(k)`. -/
def mapHas (m : List (ℤ × ℕ)) (k : ℤ) : Bool :=
  m.any (fun p => p.1 == k)

/-- `counts.set(k, v)`: update in place if present, else append. -/
def mapSet (m : List (ℤ × ℕ)) (k : ℤ) (v : ℕ) : List (ℤ × ℕ) :=
  if mapHas m k then m.map (fun p => if p.1 == k then (k, v) else p)
  else m ++ [(k, v)]

/-- `counts.get(k)`. -/
def mapGet (m : List (ℤ × ℕ)) (k : ℤ) : Option ℕ :=
  (m.find? (fun p => p.1 == k)).map (fun p => p.2)

/-! ### Neighborhood aggregator
(`updateNeighborhoodCountsFromIncidents`, `App.vue` lines 352-370). -/

/-- First loop: `for n of neighborhoods: counts.set(n.id, 0)`. -/
def initCounts (ns : List Neighborhood) : List (ℤ × ℕ) :=
  ns.foldl (fun m n => mapSet m n.id 0) []

/-- Second loop: for each crime, increment its neighborhood's entry when
the key is present (unmatched `neighborhood_number`s are skipped). -/
def tallyCounts (m : List (ℤ × ℕ)) (incs : List Incident) : List (ℤ × ℕ) :=
  incs.foldl (fun m c =>
    if mapHas m c.neighborhood_number then
      mapSet m c.neighborhood_number ((mapGet m c.neighborhood_number).getD 0 + 1)
    else m) m

/-- The per-neighborhood counts map rebuilt from scratch on each call. -/
def countsMap (ns : List Neighborhood) (incs : List Incident) : List (ℤ × ℕ) :=
  tallyCounts (initCounts ns) incs

/-- Popup label `"<name>: <count> crime(s)"` with the singular form
exactly when the count is 1. -/
def crimeLabel (name : String) (k : ℕ) : String :=
  name ++ ": " ++ toString k ++ " crime" ++ (if k == 1 then "" else "s")

/-- `updateNeighborhoodCountsFromIncidents()`: write `crimes` from the
counts map (`counts.get(n.id) || 0`) and rebind the popup label. -/
def updateNeighborhoodCountsFromIncidents (ns : List Neighborhood)
    (incs : List Incident) : List Neighborhood :=
  let counts := countsMap ns incs
  ns.map (fun n =>
    let c := (mapGet counts n.id).getD 0
    { n with crimes := c, popup := crimeLabel n.name c })

/-! ### Incident query engine (`fetchIncidents`, `App.vue` lines 245-347). -/

/-- Insertion-order deduplication, as `Array.from(new Set(...))` produces
(the `Set` keeps the first occurrence of each element). -/
def dedupKeepFirst (l : List ℤ) : List ℤ :=
  l.foldl (fun acc x => if acc.contains x then acc else acc ++ [x]) []

/-- Selected codes: union of the codes of all groups whose type belongs
to a selected group, deduplicated by the `Set`, then sorted numerically
ascending (`.sort((a, b) => a - b)`); `[]` when no group is selected. -/
def selectedCodesOf (groups : List IncidentTypeGroup) : List ℤ :=
  let selectedTypes := (groups.filter (fun g => g.selected)).map (fun g => g.type)
  if selectedTypes.length > 0 then
    List.insertionSort (· ≤ ·)
      (dedupKeepFirst (groups.foldl
        (fun acc g => if selectedTypes.contains g.type then acc ++ g.codes else acc) []))
  else []

/-- Ids of the neighborhoods whose checkbox is selected. -/
def selectedNeighborhoodIds (ns : List Neighborhood) : List ℤ :=
  (ns.filter (fun n => n.selected)).map (fun n => n.id)

/-- Candidate ids: the selected ids, or all ids when none is selected. -/
def baseNeighborhoodIds (ns : List Neighborhood) : List ℤ :=
  if (selectedNeighborhoodIds ns).length > 0 then selectedNeighborhoodIds ns
  else ns.map (fun n => n.id)

/-- Effective ids: candidates restricted to the viewport-visible ids,
unless the visible set is empty, in which case the candidates pass
through unchanged (`baseNeighborhoodIds.slice()`). -/
def inViewIds (ns : List Neighborhood) (visible : List ℤ) : List ℤ :=
  if visible.length > 0 then
    (baseNeighborhoodIds ns).filter (fun i => visible.contains i)
  else baseNeighborhoodIds ns

/-- The query string parameters assembled into `URLSearchParams`
(values are kept in their pre-stringification form; `limit` is the
number passed to `String(...)`). -/
structure IncidentRequest where
  limit : ℚ
  start_date : Option String
  end_date : Option String
  code : Option String
  neighborhood : String
deriving DecidableEq

/-- `Array.prototype.join(',')`. -/
def joinComma : List String → String
  | [] => ""
  | x :: xs => xs.foldl (fun acc s => acc ++ "," ++ s) x

/-- JavaScript `a || b` on an optional string (an absent or empty string
falls through to the default). -/
def jsOrString (o : Option String) (d : String) : String :=
  match o with
  | some s => if s = "" then d else s
  | none => d

/-- Lookup in the `codeToType` map; `Map.set` in a loop means the last
occurrence of a code wins. -/
def codeToType (codes : List Code) (k : ℤ) : Option String :=
  (codes.reverse.find? (fun c => c.code == k)).map (fun c => c.type)

/-- Lookup in the `neighborhoodMap` map (last occurrence of an id wins). -/
def neighborhoodNameOf (ns : List Neighborhood) (k : ℤ) : Option String :=
  (ns.reverse.find? (fun n => n.id == k)).map (fun n => n.name)

/-- Row enrichment done on each returned incident. -/
def enrichIncident (codes : List Code) (ns : List Neighborhood)
    (row : IncidentRow) : Incident :=
  let ity := jsOrString (codeToType codes row.code) "Unknown"
  let nname := jsOrString (neighborhoodNameOf ns row.neighborhood_number) "Unknown"
  { toIncidentRow := row
    incident_type := ity
    neighborhood_name := nname
    category := categorizeCrime ity row.incident }

/-- Result of one `fetchIncidents()` run: the request issued (if any)
and the new incident list and neighborhood states. -/
structure FetchOutcome where
  request : Option IncidentRequest
  incidents : List Incident
  neighborhoods : List Neighborhood

/-- `fetchIncidents()` (success path; the function models a configured
session past the `!baseApiUrl` guard, and the server's reply rows are
the explicit `server` argument). -/
def fetchIncidents (codes : List Code) (groups : List IncidentTypeGroup)
    (ns : List Neighborhood) (visible : List ℤ) (filters : Filters)
    (server : List IncidentRow) : FetchOutcome :=
  let selCodes := selectedCodesOf groups
  let inView := inViewIds ns visible
  if inView.length == 0 then
    { request := none, incidents := [],
      neighborhoods := updateNeighborhoodCountsFromIncidents ns [] }
  else
    let req : IncidentRequest :=
      { limit := if filters.maxIncidents > 0 then filters.maxIncidents else 1000
        start_date := if filters.dateStart = "" then none else some filters.dateStart
        end_date := if filters.dateEnd = "" then none else some filters.dateEnd
        code := if selCodes.length > 0 then some (joinComma (selCodes.map toString))
                else none
        neighborhood := joinComma (inView.map toString) }
    let incs := server.map (enrichIncident codes ns)
    { request := some req, incidents := incs,
      neighborhoods := updateNeighborhoodCountsFromIncidents ns incs }

/-! ### Sample data used by concrete witnesses and counterexamples. -/

/-- A selected neighborhood with id 1. -/
def sampleSelA : Neighborhood :=
  { id := 1, name := "A", lat := 0, lng := 0, crimes := 0, selected := true, popup := "" }

/-- An unselected neighborhood with id 2. -/
def sampleUnselB : Neighborhood :=
  { id := 2, name := "B", lat := 0, lng := 0, crimes := 0, selected := false, popup := "" }

/-- A sample raw incident row. -/
def sampleRow : IncidentRow :=
  { case_number := "19-1", date := "2019-10-01", time := "12:00", code := 9954,
    incident := "Theft", police_grid := 87, neighborhood_number := 2,
    block := "98X UNIVERSITY AV W" }

/-! ### C2: candidate and effective neighborhood sets. -/

/-- C2: the candidate neighborhood set is the ids of the selected
neighborhoods, falling back to all ids when none is selected, and the
effective set is the intersection of the candidates with the
viewport-visible ids, except that an empty visible set leaves the
candidates unfiltered. -/
theorem c2_effective_neighborhoods (ns : List Neighborhood) (visible : List ℤ) :
    ((∃ n ∈ ns, n.selected = true) →
      baseNeighborhoodIds ns = (ns.filter (fun n => n.selected)).map (fun n => n.id)) ∧
    ((∀ n ∈ ns, n.selected = false) →
      baseNeighborhoodIds ns = ns.map (fun n => n.id)) ∧
    (visible = [] → inViewIds ns visible = baseNeighborhoodIds ns) ∧
    (visible ≠ [] → ∀ i : ℤ,
      i ∈ inViewIds ns visible ↔ i ∈ baseNeighborhoodIds ns ∧ i ∈ visible) := by
  refine ⟨?_, ?_, ?_, ?_⟩
  · rintro ⟨n, hn, hsel⟩
    have hmem : n ∈ ns.filter (fun n => n.selected) := List.mem_filter.2 ⟨hn, hsel⟩
    have hpos : 0 < (selectedNeighborhoodIds ns).length := by
      unfold selectedNeighborhoodIds
      rw [List.length_map]
      exact List.length_pos.2 (fun hnil => by
        rw [hnil] at hmem
        exact absurd hmem (List.not_mem_nil n))
    unfold baseNeighborhoodIds
    rw [if_pos hpos]
    rfl
  · intro hall
    have hempty : ns.filter (fun n => n.selected) = [] :=
      List.filter_eq_nil_iff.2 (fun n hn => by simp [hall n hn])
    unfold baseNeighborhoodIds selectedNeighborhoodIds
    rw [hempty]
    simp
  · rintro rfl
    unfold inViewIds
    simp
  · intro hne i
    unfold inViewIds
    rw [if_pos (List.length_pos.2 hne)]
    simp [List.mem_filter]

/-- C2 witness: on a two-neighborhood state with only id 1 selected,
the candidate set is the selected ids; with both unselected it is all
ids; an empty visible set passes candidates through; a nonempty visible
set intersects. -/
theorem c2_effective_neighborhoods_witness :
    baseNeighborhoodIds [sampleSelA, sampleUnselB] =
      (([sampleSelA, sampleUnselB].filter (fun n => n.selected)).map (fun n => n.id)) ∧
    baseNeighborhoodIds [sampleUnselB] = [sampleUnselB].map (fun n => n.id) ∧
    inViewIds [sampleSelA, sampleUnselB] [] = baseNeighborhoodIds [sampleSelA, sampleUnselB] ∧
    ((1 : ℤ) ∈ inViewIds [sampleSelA, sampleUnselB] [1] ↔
      (1 : ℤ) ∈ baseNeighborhoodIds [sampleSelA, sampleUnselB] ∧ (1 : ℤ) ∈ ([1] : List ℤ)) := by
  have h2 := c2_effective_neighborhoods [sampleSelA, sampleUnselB] [1]
  have h0 := c2_effective_neighborhoods [sampleSelA, sampleUnselB] ([] : List ℤ)
  have hu := c2_effective_neighborhoods [sampleUnselB] ([] : List ℤ)
  exact ⟨h2.1 ⟨sampleSelA, by decide, by decide⟩, hu.2.1 (by decide), h0.2.2.1 rfl,
    h2.2.2.2 (by decide) 1⟩

/-! ### C3: the short-circuit of `fetchIncidents`. -/

theorem mapSet_zero_vals (m : List (ℤ × ℕ)) (k : ℤ)
    (hm : ∀ p ∈ m, p.2 = 0) : ∀ p ∈ mapSet m k 0, p.2 = 0 := by
  intro p hp
  unfold mapSet at hp
  by_cases hhas : mapHas m k = true
  · rw [if_pos hhas] at hp
    rw [List.mem_map] at hp
    obtain ⟨q, hq, hpq⟩ := hp
    by_cases hq1 : (q.1 == k) = true
    · rw [if_pos hq1] at hpq
      rw [← hpq]
    · rw [if_neg hq1] at hpq
      exact hpq ▸ hm q hq
  · rw [if_neg hhas, List.mem_append] at hp
    rcases hp with hp | hp
    · exact hm p hp
    · simp only [List.mem_singleton] at hp
      rw [hp]

theorem initCounts_vals_aux (ns : List Neighborhood) :
    ∀ m : List (ℤ × ℕ), (∀ p ∈ m, p.2 = 0) →
      ∀ p ∈ ns.foldl (fun m n => mapSet m n.id 0) m, p.2 = 0 := by
  induction ns with
  | nil => exact fun m hm => hm
  | cons n t ih =>
    intro m hm
    exact ih (mapSet m n.id 0) (mapSet_zero_vals m n.id hm)

theorem initCounts_vals_zero (ns : List Neighborhood) :
    ∀ p ∈ initCounts ns, p.2 = 0 :=
  initCounts_vals_aux ns [] (by simp)

theorem crimeLabel_zero (name : String) : crimeLabel name 0 = name ++ ": 0 crimes" := by
  unfold crimeLabel
  rw [String.append_assoc, String.append_assoc, String.append_assoc]
  congr 1

theorem updateCounts_nil (ns : List Neighborhood) :
    ∀ n' ∈ updateNeighborhoodCountsFromIncidents ns [],
      n'.crimes = 0 ∧ n'.popup = n'.name ++ ": 0 crimes" := by
  intro n' hn'
  unfold updateNeighborhoodCountsFromIncidents at hn'
  rw [List.mem_map] at hn'
  obtain ⟨n, hn, rfl⟩ := hn'
  have hzero : (mapGet (countsMap ns []) n.id).getD 0 = 0 := by
    have hcm : countsMap ns [] = initCounts ns := rfl
    rw [hcm]
    cases hg : mapGet (initCounts ns) n.id with
    | none => rfl
    | some v =>
      unfold mapGet at hg
      cases hf : (initCounts ns).find? (fun p => p.1 == n.id) with
      | none => rw [hf] at hg; cases hg
      | some p =>
        rw [hf] at hg
        have hv : p.2 = v := by simpa using hg
        simp [← hv, initCounts_vals_zero ns p (List.mem_of_find?_eq_some hf)]
  dsimp only
  rw [hzero]
  exact ⟨rfl, crimeLabel_zero n.name⟩

/-- C3 counterexample: with one (unselected) neighborhood and an empty
viewport-visible set, the claim's scenario fails on the code: the empty
selection falls back to all neighborhood ids, so `fetchIncidents` does
not short-circuit — it issues a network request and returns the
server's row instead of an empty incident list. -/
theorem c3_counterexample :
    (∀ n ∈ [sampleUnselB], n.selected = false) ∧
    (fetchIncidents [] [] [sampleUnselB] [] ⟨"", "", 1000⟩ [sampleRow]).request ≠ none ∧
    (fetchIncidents [] [] [sampleUnselB] [] ⟨"", "", 1000⟩ [sampleRow]).incidents ≠ [] := by
  refine ⟨by decide, ?_, ?_⟩ <;> decide

/-- C3 (amended): whenever the effective neighborhood set is empty,
`fetchIncidents` short-circuits — no request is issued, the incident
list becomes empty and every neighborhood count is recomputed to zero —
but in the all-unselected / empty-visible configuration the effective
set is empty only when the neighborhoods list itself is empty, because
an empty selection falls back to all neighborhood ids. -/
theorem c3_short_circuit_on_empty_effective (codes : List Code)
    (groups : List IncidentTypeGroup) (ns : List Neighborhood) (visible : List ℤ)
    (filters : Filters) (server : List IncidentRow)
    (h : inViewIds ns visible = []) :
    (fetchIncidents codes groups ns visible filters server).request = none ∧
    (fetchIncidents codes groups ns visible filters server).incidents = [] ∧
    (∀ n ∈ (fetchIncidents codes groups ns visible filters server).neighborhoods,
      n.crimes = 0 ∧ n.popup = n.name ++ ": 0 crimes") ∧
    (visible = [] → (∀ n ∈ ns, n.selected = false) → ns = []) := by
  have e : fetchIncidents codes groups ns visible filters server =
      { request := none, incidents := [],
        neighborhoods := updateNeighborhoodCountsFromIncidents ns [] } := by
    unfold fetchIncidents
    rw [h]
    rfl
  refine ⟨by rw [e], by rw [e], ?_, ?_⟩
  · rw [e]
    exact updateCounts_nil ns
  · rintro rfl hall
    have hbase := (c2_effective_neighborhoods ns []).2.1 hall
    have hview := (c2_effective_neighborhoods ns []).2.2.1 rfl
    rw [hview, hbase] at h
    exact List.map_eq_nil_iff.1 h

/-- C3 witness: with an empty neighborhoods list (the one configuration
where all-unselected plus empty-visible gives an empty effective set),
the query short-circuits: no request and an empty incident list. -/
theorem c3_short_circuit_on_empty_effective_witness :
    (fetchIncidents [] [] [] [] ⟨"", "", 1000⟩ [sampleRow]).request = none ∧
    (fetchIncidents [] [] [] [] ⟨"", "", 1000⟩ [sampleRow]).incidents = [] ∧
    ([] : List Neighborhood) = [] := by
  have h := c3_short_circuit_on_empty_effective [] [] [] [] ⟨"", "", 1000⟩ [sampleRow]
    (by decide)
  exact ⟨h.1, h.2.1, h.2.2.2 rfl (by simp)⟩

/-! ### C5: correctness of the counts map and the aggregator. -/

theorem bool_eq_false {b : Bool} (h : ¬ b = true) : b = false := by
  cases b
  · rfl
  · exact absurd rfl h

theorem mapGet_cons (p : ℤ × ℕ) (t : List (ℤ × ℕ)) (q : ℤ) :
    mapGet (p :: t) q = if (p.1 == q) = true then some p.2 else mapGet t q := by
  unfold mapGet
  cases hp : (p.1 == q) with
  | true => simp [List.find?_cons, hp]
  | false => simp [List.find?_cons, hp]

theorem map_id_of_no_key (t : List (ℤ × ℕ)) (k : ℤ) (w : ℕ)
    (h : (t.any fun r => r.1 == k) = false) :
    t.map (fun r => if r.1 == k then (k, w) else r) = t := by
  induction t with
  | nil => rfl
  | cons r t ih =>
    rw [List.any_cons, Bool.or_eq_false_iff] at h
    rw [List.map_cons, if_neg (by simp [h.1]), ih h.2]

theorem mapSet_cons (p : ℤ × ℕ) (t : List (ℤ × ℕ)) (k : ℤ) (v : ℕ) :
    mapSet (p :: t) k v =
      if (p.1 == k) = true then
        (k, v) :: t.map (fun r => if r.1 == k then (k, v) else r)
      else p :: mapSet t k v := by
  by_cases hpk : (p.1 == k) = true
  · rw [if_pos hpk]
    unfold mapSet mapHas
    rw [if_pos (by rw [List.any_cons, hpk, Bool.true_or]), List.map_cons, if_pos hpk]
  · rw [if_neg hpk]
    unfold mapSet mapHas
    rw [List.any_cons, bool_eq_false hpk, Bool.false_or]
    by_cases hht : (t.any fun r => r.1 == k) = true
    · rw [if_pos hht, if_pos hht, List.map_cons, if_neg hpk]
    · rw [if_neg hht, if_neg hht, List.cons_append]

theorem mapGet_mapSet (m : List (ℤ × ℕ)) (k : ℤ) (v : ℕ) (q : ℤ) :
    mapGet (mapSet m k v) q = if q = k then some v else mapGet m q := by
  induction m with
  | nil =>
    show mapGet [(k, v)] q = _
    rw [mapGet_cons]
    by_cases hqk : q = k
    · subst hqk
      simp
    · simp [hqk, Ne.symm hqk]
  | cons p t ih =>
    rw [mapSet_cons]
    by_cases hpk : (p.1 == k) = true
    · have hp1 : p.1 = k := by simpa using hpk
      rw [if_pos hpk]
      by_cases hht : (t.any fun r => r.1 == k) = true
      · have hms : t.map (fun r => if r.1 == k then (k, v) else r) = mapSet t k v := by
          unfold mapSet mapHas
          rw [if_pos hht]
        rw [hms, mapGet_cons, mapGet_cons, ih]
        by_cases hqk : q = k
        · simp [hqk]
        · simp [hqk, hp1, Ne.symm hqk]
      · rw [map_id_of_no_key t k v (bool_eq_false hht), mapGet_cons, mapGet_cons]
        by_cases hqk : q = k
        · simp [hqk]
        · simp [hqk, hp1, Ne.symm hqk]
    · rw [if_neg hpk, mapGet_cons, mapGet_cons, ih]
      by_cases hqk : q = k
      · subst hqk
        simp [hpk]
      · simp [hqk]

theorem mapGet_isSome_eq_mapHas (m : List (ℤ × ℕ)) (k : ℤ) :
    (mapGet m k).isSome = mapHas m k := by
  induction m with
  | nil => rfl
  | cons p t ih =>
    rw [mapGet_cons, mapHas, List.any_cons]
    by_cases hp : (p.1 == k) = true
    · simp [hp]
    · simp only [hp, if_neg hp, Bool.false_or]
      exact ih

theorem mapHas_some (m : List (ℤ × ℕ)) (k : ℤ) (h : mapHas m k = true) :
    ∃ v, mapGet m k = some v := by
  have := mapGet_isSome_eq_mapHas m k
  rw [h] at this
  exact Option.isSome_iff_exists.1 this

theorem mapGet_none_of_not_has (m : List (ℤ × ℕ)) (k : ℤ)
    (h : mapHas m k = false) : mapGet m k = none := by
  have := mapGet_isSome_eq_mapHas m k
  rw [h] at this
  exact Option.not_isSome_iff_eq_none.1 (by simp [this])

theorem tallyCounts_get (incs : List Incident) :
    ∀ (m : List (ℤ × ℕ)) (k : ℤ),
      mapGet (tallyCounts m incs) k =
        (mapGet m k).map
          (fun v => v + incs.countP (fun c => c.neighborhood_number == k)) := by
  induction incs with
  | nil =>
    intro m k
    show mapGet m k = _
    cases mapGet m k <;> simp
  | cons c rest ih =>
    intro m k
    rw [show tallyCounts m (c :: rest) = tallyCounts
      (if mapHas m c.neighborhood_number then
        mapSet m c.neighborhood_number ((mapGet m c.neighborhood_number).getD 0 + 1)
      else m) rest from rfl]
    by_cases hhas : mapHas m c.neighborhood_number = true
    · obtain ⟨v, hv⟩ := mapHas_some m c.neighborhood_number hhas
      rw [if_pos hhas, ih, mapGet_mapSet, List.countP_cons]
      by_cases hqk : k = c.neighborhood_number
      · rw [if_pos hqk, hqk, hv]
        simp only [Option.getD_some, Option.map_some', Option.some.injEq,
          beq_self_eq_true, if_true]
        omega
      · rw [if_neg hqk]
        have hc : (c.neighborhood_number == k) = false := by
          refine bool_eq_false (fun h => hqk ?_)
          exact ((by simpa using h : c.neighborhood_number = k)).symm
        cases hg : mapGet m k <;> simp [hc]
    · rw [if_neg hhas, ih, List.countP_cons]
      by_cases hqk : k = c.neighborhood_number
      · rw [hqk, mapGet_none_of_not_has m _ (bool_eq_false hhas)]
        simp
      · have hc : (c.neighborhood_number == k) = false := by
          refine bool_eq_false (fun h => hqk ?_)
          exact ((by simpa using h : c.neighborhood_number = k)).symm
        cases hg : mapGet m k <;> simp [hc]

theorem initCounts_get_aux (ns : List Neighborhood) :
    ∀ (m : List (ℤ × ℕ)) (k : ℤ),
      mapGet (ns.foldl (fun m n => mapSet m n.id 0) m) k =
        if (ns.any fun n => n.id == k) = true then some 0 else mapGet m k := by
  induction ns with
  | nil =>
    intro m k
    simp
  | cons n t ih =>
    intro m k
    rw [List.foldl_cons, ih, List.any_cons]
    by_cases hk : (t.any fun n => n.id == k) = true
    · simp [hk]
    · rw [if_neg hk, mapGet_mapSet]
      by_cases hnk : k = n.id
      · subst hnk
        rw [if_pos rfl, if_pos (by simp)]
      · rw [if_neg hnk, if_neg (by simp [hk, Ne.symm hnk])]

theorem initCounts_get (ns : List Neighborhood) (k : ℤ) :
    mapGet (initCounts ns) k =
      if (ns.any fun n => n.id == k) = true then some 0 else none := by
  rw [initCounts, initCounts_get_aux]
  rfl

theorem countsMap_get (ns : List Neighborhood) (incs : List Incident) (k : ℤ) :
    mapGet (countsMap ns incs) k =
      if (ns.any fun n => n.id == k) = true then
        some (incs.countP (fun c => c.neighborhood_number == k))
      else none := by
  rw [countsMap, tallyCounts_get, initCounts_get]
  by_cases h : (ns.any fun n => n.id == k) = true <;> simp [h]

/-- Sum of the values of a counts map. -/
def mapVals (m : List (ℤ × ℕ)) : ℕ :=
  (m.map (fun p => p.2)).sum

theorem mapHas_iff_mem_keys (m : List (ℤ × ℕ)) (k : ℤ) :
    mapHas m k = true ↔ k ∈ m.map (fun p => p.1) := by
  unfold mapHas
  rw [List.any_eq_true]
  constructor
  · rintro ⟨p, hp, hk⟩
    exact List.mem_map.2 ⟨p, hp, by simpa using hk⟩
  · intro hk
    obtain ⟨p, hp, hkp⟩ := List.mem_map.1 hk
    exact ⟨p, hp, by simp [hkp]⟩

theorem keys_mapSet (m : List (ℤ × ℕ)) (k : ℤ) (v : ℕ) :
    (mapSet m k v).map (fun p => p.1) =
      if mapHas m k = true then m.map (fun p => p.1)
      else m.map (fun p => p.1) ++ [k] := by
  unfold mapSet
  by_cases h : mapHas m k = true
  · rw [if_pos h, if_pos h, List.map_map]
    refine List.map_congr_left (fun p hp => ?_)
    by_cases hpk : (p.1 == k) = true
    · show (if (p.1 == k) = true then (k, v) else p).1 = p.1
      rw [if_pos hpk]
      exact (by simpa using hpk : p.1 = k).symm
    · show (if (p.1 == k) = true then (k, v) else p).1 = p.1
      rw [if_neg hpk]
  · rw [if_neg h, if_neg h, List.map_append]
    rfl

theorem mapVals_mapSet_incr (m : List (ℤ × ℕ)) (k : ℤ) (v w : ℕ)
    (hnd : (m.map (fun p => p.1)).Nodup) (hget : mapGet m k = some v) :
    mapVals (mapSet m k w) + v = mapVals m + w := by
  induction m with
  | nil => cases hget
  | cons p t ih =>
    rw [List.map_cons, List.nodup_cons] at hnd
    rw [mapSet_cons]
    by_cases hpk : (p.1 == k) = true
    · rw [if_pos hpk]
      have hp1 : p.1 = k := by simpa using hpk
      have hkt : (t.any fun r => r.1 == k) = false := by
        refine bool_eq_false (fun hany => ?_)
        exact hnd.1 (hp1 ▸ (mapHas_iff_mem_keys t k).1 hany)
      rw [map_id_of_no_key t k w hkt]
      have hv : v = p.2 := by
        rw [mapGet_cons, if_pos hpk] at hget
        exact (Option.some.injEq _ _ ▸ hget).symm
      unfold mapVals
      simp only [List.map_cons, List.sum_cons, hv]
      omega
    · rw [if_neg hpk]
      have hget' : mapGet t k = some v := by
        rw [mapGet_cons, if_neg hpk] at hget
        exact hget
      have hrec := ih hnd.2 hget'
      unfold mapVals at hrec ⊢
      simp only [List.map_cons, List.sum_cons]
      omega

theorem keys_initCounts_nodup (ns : List Neighborhood) :
    ((initCounts ns).map (fun p => p.1)).Nodup := by
  suffices h : ∀ m : List (ℤ × ℕ), (m.map (fun p => p.1)).Nodup →
      ((ns.foldl (fun m n => mapSet m n.id 0) m).map (fun p => p.1)).Nodup by
    exact h [] (by simp)
  induction ns with
  | nil => exact fun m hm => hm
  | cons n t ih =>
    intro m hm
    refine ih (mapSet m n.id 0) ?_
    rw [keys_mapSet]
    by_cases h : mapHas m n.id = true
    · rw [if_pos h]
      exact hm
    · rw [if_neg h]
      rw [List.nodup_append]
      refine ⟨hm, List.nodup_singleton _, ?_⟩
      intro x hx hx1
      rw [List.mem_singleton] at hx1
      subst hx1
      exact h ((mapHas_iff_mem_keys m n.id).2 hx)

theorem mapHas_congr_keys (m m' : List (ℤ × ℕ))
    (h : m.map (fun p => p.1) = m'.map (fun p => p.1)) (k : ℤ) :
    mapHas m k = mapHas m' k := by
  by_cases hm : mapHas m k = true
  · rw [hm, eq_comm, (mapHas_iff_mem_keys m' k), ← h]
    exact (mapHas_iff_mem_keys m k).1 hm
  · rw [Bool.not_eq_true] at hm
    rw [hm, eq_comm, ← Bool.not_eq_true, mapHas_iff_mem_keys m' k, ← h]
    intro hmem
    exact (by simpa using hm : ¬ mapHas m k = true) ((mapHas_iff_mem_keys m k).2 hmem)

theorem tallyCounts_vals (incs : List Incident) :
    ∀ m : List (ℤ × ℕ), (m.map (fun p => p.1)).Nodup →
      mapVals (tallyCounts m incs) =
        mapVals m + incs.countP (fun c => mapHas m c.neighborhood_number) := by
  induction incs with
  | nil =>
    intro m _
    show mapVals m = _
    simp
  | cons c rest ih =>
    intro m hnd
    rw [show tallyCounts m (c :: rest) = tallyCounts
      (if mapHas m c.neighborhood_number then
        mapSet m c.neighborhood_number ((mapGet m c.neighborhood_number).getD 0 + 1)
      else m) rest from rfl]
    by_cases hhas : mapHas m c.neighborhood_number = true
    · obtain ⟨v, hv⟩ := mapHas_some m c.neighborhood_number hhas
      rw [if_pos hhas]
      have hkeys : (mapSet m c.neighborhood_number
          ((mapGet m c.neighborhood_number).getD 0 + 1)).map (fun p => p.1) =
          m.map (fun p => p.1) := by
        rw [keys_mapSet, if_pos hhas]
      rw [ih _ (hkeys ▸ hnd)]
      have hincr := mapVals_mapSet_incr m c.neighborhood_number v
        ((mapGet m c.neighborhood_number).getD 0 + 1) hnd hv
      rw [hv] at hincr
      simp only [Option.getD_some] at hincr
      have hcnt : rest.countP (fun c2 => mapHas (mapSet m c.neighborhood_number
          (v + 1)) c2.neighborhood_number) =
          rest.countP (fun c2 => mapHas m c2.neighborhood_number) :=
        List.countP_congr (fun c2 _ => by
          rw [mapHas_congr_keys _ m (by rw [keys_mapSet, if_pos hhas]) c2.neighborhood_number])
      rw [hv]
      simp only [Option.getD_some]
      rw [hcnt, List.countP_cons]
      rw [if_pos (by simpa using hhas)]
      omega
    · rw [if_neg hhas, ih m hnd, List.countP_cons]
      rw [if_neg (by simpa using hhas)]
      omega

theorem countsMap_vals (ns : List Neighborhood) (incs : List Incident) :
    mapVals (countsMap ns incs) =
      incs.countP (fun c => ns.any (fun n => n.id == c.neighborhood_number)) := by
  rw [countsMap, tallyCounts_vals incs (initCounts ns) (keys_initCounts_nodup ns)]
  have h0 : mapVals (initCounts ns) = 0 := by
    unfold mapVals
    refine List.sum_eq_zero (fun x hx => ?_)
    obtain ⟨p, hp, rfl⟩ := List.mem_map.1 hx
    exact initCounts_vals_zero ns p hp
  rw [h0, Nat.zero_add]
  refine List.countP_congr (fun c _ => ?_)
  have hh := mapGet_isSome_eq_mapHas (initCounts ns) c.neighborhood_number
  rw [initCounts_get] at hh
  by_cases h : (ns.any fun n => n.id == c.neighborhood_number) = true
  · rw [if_pos h] at hh
    simp only [Option.isSome_some] at hh
    simp [← hh, h]
  · rw [if_neg h] at hh
    simp only [Option.isSome_none] at hh
    constructor
    · intro hhas
      rw [← hh] at hhas
      cases hhas
    · intro hany
      exact absurd hany h

theorem crimeLabel_spec (name : String) (k : ℕ) :
    crimeLabel name k =
      name ++ ": " ++ toString k ++ (if k = 1 then " crime" else " crimes") := by
  unfold crimeLabel
  by_cases hk : k = 1
  · subst hk
    simp [String.append_empty]
  · have hb : (k == 1) = false := by simp [hk]
    simp only [hb, Bool.false_eq_true, if_false, if_neg hk]
    rw [String.append_assoc]
    congr 1

/-- C5: the aggregator rewrites each neighborhood's count to the number
of incidents whose `neighborhood_number` matches its id and its popup
label to `"<name>: <count> crime(s)"` with the singular form exactly at
count 1; the values of the per-id counts map sum to the number of
matched incidents, hence to the full incident count when every incident
matches a known neighborhood; unmatched incidents are silently excluded. -/
theorem c5_updateNeighborhoodCounts (ns : List Neighborhood) (incs : List Incident) :
    updateNeighborhoodCountsFromIncidents ns incs =
      ns.map (fun n =>
        { n with
          crimes := incs.countP (fun c => c.neighborhood_number == n.id),
          popup := n.name ++ ": " ++
            toString (incs.countP (fun c => c.neighborhood_number == n.id)) ++
            (if incs.countP (fun c => c.neighborhood_number == n.id) = 1
             then " crime" else " crimes") }) ∧
    mapVals (countsMap ns incs) =
      incs.countP (fun c => ns.any (fun n => n.id == c.neighborhood_number)) ∧
    ((∀ c ∈ incs, ∃ n ∈ ns, n.id = c.neighborhood_number) →
      mapVals (countsMap ns incs) = incs.length) := by
  refine ⟨?_, countsMap_vals ns incs, ?_⟩
  · unfold updateNeighborhoodCountsFromIncidents
    refine List.map_congr_left (fun n hn => ?_)
    have hget : mapGet (countsMap ns incs) n.id =
        some (incs.countP (fun c => c.neighborhood_number == n.id)) := by
      rw [countsMap_get]
      rw [if_pos (List.any_eq_true.2 ⟨n, hn, by simp⟩)]
    dsimp only
    rw [hget]
    simp only [Option.getD_some]
    rw [crimeLabel_spec]
  · intro hall
    rw [countsMap_vals]
    exact List.countP_eq_length.2 (fun c hc => by
      obtain ⟨n, hn, hid⟩ := hall c hc
      exact List.any_eq_true.2 ⟨n, hn, by simp [hid]⟩)

/-- An enriched incident carrying only a neighborhood number, used by
the C5 scenario. -/
def scenarioIncident (k : ℤ) : Incident :=
  { case_number := "c", date := "", time := "", code := 0, incident := "",
    police_grid := 0, neighborhood_number := k, block := "",
    incident_type := "", neighborhood_name := "", category := "" }

/-- C5 witness: the scenario with neighborhoods A (id 1) and B (id 2)
and incidents in neighborhoods 1, 1, 2 yields counts 2 and 1, labels
"A: 2 crimes" and "B: 1 crime", and a total of 3 = the incident count. -/
theorem c5_updateNeighborhoodCounts_witness :
    (updateNeighborhoodCountsFromIncidents [sampleSelA, sampleUnselB]
        [scenarioIncident 1, scenarioIncident 1, scenarioIncident 2]).map
      (fun n => (n.crimes, n.popup)) = [(2, "A: 2 crimes"), (1, "B: 1 crime")] ∧
    mapVals (countsMap [sampleSelA, sampleUnselB]
        [scenarioIncident 1, scenarioIncident 1, scenarioIncident 2]) = 3 := by
  have h := c5_updateNeighborhoodCounts [sampleSelA, sampleUnselB]
    [scenarioIncident 1, scenarioIncident 1, scenarioIncident 2]
  exact ⟨by decide, h.2.2 (by decide)⟩

/-! ### C4: `loadCodes` grouping and sorting (`App.vue` lines 170-188).

The `Map`-based grouping loop is embedded as a fold over an association
list with the same first-occurrence insertion order and in-place
`push`; the `localeCompare` sort comparator is modelled as code-point
lexicographic comparison, on which the two agree for this dataset's
same-case ASCII type names. -/

/-- One step of the grouping loop: push the code onto the existing group
of the same type, or append a fresh group (`selected: true`). -/
def insertCode (acc : List IncidentTypeGroup) (c : Code) : List IncidentTypeGroup :=
  if acc.any (fun g => g.type == c.type) then
    acc.map (fun g =>
      if g.type == c.type then { g with codes := g.codes ++ [c.code] } else g)
  else acc ++ [{ type := c.type, codes := [c.code], selected := true }]

/-- Code-point lexicographic comparison of character lists. -/
def lexLeChars : List Char → List Char → Bool
  | [], _ => true
  | _ :: _, [] => false
  | a :: as, b :: bs =>
    if a.toNat < b.toNat then true
    else if b.toNat < a.toNat then false
    else lexLeChars as bs

/-- Embedded string ordering used for the type sort. -/
def strLe (s t : String) : Prop :=
  lexLeChars s.data t.data = true

instance : DecidableRel strLe :=
  fun s t => instDecidableEqBool (lexLeChars s.data t.data) true

/-- Group comparison by type, modelling `a.type.localeCompare(b.type)`. -/
def groupLe (a b : IncidentTypeGroup) : Prop :=
  strLe a.type b.type

instance : DecidableRel groupLe :=
  fun a b => instDecidableEqBool (lexLeChars a.type.data b.type.data) true

theorem lexLeChars_total : ∀ a b, lexLeChars a b = true ∨ lexLeChars b a = true := by
  intro a
  induction a with
  | nil => intro b; exact Or.inl rfl
  | cons x as ih =>
    intro b
    cases b with
    | nil => exact Or.inr rfl
    | cons y bs =>
      by_cases hxy : x.toNat < y.toNat
      · exact Or.inl (by simp [lexLeChars, hxy])
      · by_cases hyx : y.toNat < x.toNat
        · exact Or.inr (by simp [lexLeChars, hyx])
        · rcases ih bs with h | h
          · exact Or.inl (by simp [lexLeChars, hxy, hyx, h])
          · exact Or.inr (by simp [lexLeChars, hxy, hyx, h])

theorem lexLeChars_trans :
    ∀ a b c, lexLeChars a b = true → lexLeChars b c = true → lexLeChars a c = true := by
  intro a
  induction a with
  | nil => intro b c _ _; rfl
  | cons x as ih =>
    intro b c hab hbc
    cases b with
    | nil => cases hab
    | cons y bs =>
      cases c with
      | nil => cases hbc
      | cons z cs =>
        simp only [lexLeChars] at hab hbc ⊢
        by_cases hxy : x.toNat < y.toNat
        · by_cases hyz : y.toNat < z.toNat
          · rw [if_pos (show x.toNat < z.toNat by omega)]
          · by_cases hzy : z.toNat < y.toNat
            · rw [if_neg hyz, if_pos hzy] at hbc
              cases hbc
            · rw [if_pos (show x.toNat < z.toNat by omega)]
        · by_cases hyx : y.toNat < x.toNat
          · rw [if_neg hxy, if_pos hyx] at hab
            cases hab
          · rw [if_neg hxy, if_neg hyx] at hab
            by_cases hyz : y.toNat < z.toNat
            · rw [if_pos (show x.toNat < z.toNat by omega)]
            · by_cases hzy : z.toNat < y.toNat
              · rw [if_neg hyz, if_pos hzy] at hbc
                cases hbc
              · rw [if_neg hyz, if_neg hzy] at hbc
                rw [if_neg (show ¬ x.toNat < z.toNat by omega),
                  if_neg (show ¬ z.toNat < x.toNat by omega)]
                exact ih bs cs hab hbc

instance : IsTotal IncidentTypeGroup groupLe :=
  ⟨fun a b => lexLeChars_total a.type.data b.type.data⟩

instance : IsTrans IncidentTypeGroup groupLe :=
  ⟨fun a b c => lexLeChars_trans a.type.data b.type.data c.type.data⟩

/-- `loadCodes()` (pure core): group the fetched codes by type in
first-occurrence order, then sort the groups by type. -/
def loadCodes (data : List Code) : List IncidentTypeGroup :=
  List.insertionSort groupLe (data.foldl insertCode [])

theorem insertCode_selected (acc : List IncidentTypeGroup) (c : Code)
    (h : ∀ g ∈ acc, g.selected = true) : ∀ g ∈ insertCode acc c, g.selected = true := by
  intro g hg
  unfold insertCode at hg
  by_cases hhas : (acc.any fun g => g.type == c.type) = true
  · rw [if_pos hhas] at hg
    obtain ⟨g0, hg0, hfg⟩ := List.mem_map.1 hg
    by_cases ht : (g0.type == c.type) = true
    · rw [if_pos ht] at hfg
      rw [← hfg]
      exact h g0 hg0
    · rw [if_neg ht] at hfg
      rw [← hfg]
      exact h g0 hg0
  · rw [if_neg hhas, List.mem_append] at hg
    rcases hg with hg | hg
    · exact h g hg
    · rw [List.mem_singleton] at hg
      rw [hg]

theorem foldl_insertCode_selected (data : List Code) :
    ∀ acc, (∀ g ∈ acc, g.selected = true) →
      ∀ g ∈ data.foldl insertCode acc, g.selected = true := by
  induction data with
  | nil => exact fun acc h => h
  | cons c t ih =>
    intro acc h
    exact ih _ (insertCode_selected acc c h)

theorem insertCode_types (acc : List IncidentTypeGroup) (c : Code) :
    (insertCode acc c).map (fun g => g.type) =
      if (acc.any fun g => g.type == c.type) = true then acc.map (fun g => g.type)
      else acc.map (fun g => g.type) ++ [c.type] := by
  unfold insertCode
  by_cases hhas : (acc.any fun g => g.type == c.type) = true
  · rw [if_pos hhas, if_pos hhas, List.map_map]
    refine List.map_congr_left (fun g hg => ?_)
    by_cases ht : (g.type == c.type) = true
    · show (if (g.type == c.type) = true then
          { g with codes := g.codes ++ [c.code] } else g).type = g.type
      rw [if_pos ht]
    · show (if (g.type == c.type) = true then
          { g with codes := g.codes ++ [c.code] } else g).type = g.type
      rw [if_neg ht]
  · rw [if_neg hhas, if_neg hhas, List.map_append]
    rfl

theorem insertCode_types_nodup (acc : List IncidentTypeGroup) (c : Code)
    (h : (acc.map (fun g => g.type)).Nodup) :
    ((insertCode acc c).map (fun g => g.type)).Nodup := by
  rw [insertCode_types]
  by_cases hhas : (acc.any fun g => g.type == c.type) = true
  · rw [if_pos hhas]
    exact h
  · rw [if_neg hhas]
    rw [List.nodup_append]
    refine ⟨h, List.nodup_singleton _, ?_⟩
    intro x hx hx1
    rw [List.mem_singleton] at hx1
    subst hx1
    obtain ⟨g, hg, hgt⟩ := List.mem_map.1 hx
    exact hhas (List.any_eq_true.2 ⟨g, hg, by simp [hgt]⟩)

theorem foldl_insertCode_types_nodup (data : List Code) :
    ∀ acc, (acc.map (fun g => g.type)).Nodup →
      ((data.foldl insertCode acc).map (fun g => g.type)).Nodup := by
  induction data with
  | nil => exact fun acc h => h
  | cons c cs ih =>
    intro acc h
    exact ih _ (insertCode_types_nodup acc c h)

theorem foldl_insertCode_types_mem (data : List Code) :
    ∀ (acc : List IncidentTypeGroup) (t : String),
      t ∈ (data.foldl insertCode acc).map (fun g => g.type) ↔
        t ∈ acc.map (fun g => g.type) ∨ t ∈ data.map (fun c => c.type) := by
  induction data with
  | nil =>
    intro acc t
    simp
  | cons c cs ih =>
    intro acc t
    rw [List.foldl_cons, ih, insertCode_types]
    by_cases hhas : (acc.any fun g => g.type == c.type) = true
    · rw [if_pos hhas]
      simp only [List.map_cons, List.mem_cons]
      constructor
      · rintro (h | h)
        · exact Or.inl h
        · exact Or.inr (Or.inr h)
      · rintro (h | h | h)
        · exact Or.inl h
        · subst h
          obtain ⟨g, hg, hgt⟩ := List.any_eq_true.1 hhas
          exact Or.inl (List.mem_map.2 ⟨g, hg, by simpa using hgt⟩)
        · exact Or.inr h
    · rw [if_neg hhas]
      simp only [List.mem_append, List.mem_singleton, List.map_cons, List.mem_cons]
      tauto

/-- The codes appearing in the groups of type `t`. -/
def codesFor (t : String) (gs : List IncidentTypeGroup) : List ℤ :=
  ((gs.filter (fun g => g.type == t)).map (fun g => g.codes)).flatten

theorem filter_type_singleton (gs : List IncidentTypeGroup)
    (hnd : (gs.map (fun g => g.type)).Nodup) (g : IncidentTypeGroup) (hg : g ∈ gs) :
    gs.filter (fun g2 => g2.type == g.type) = [g] := by
  induction gs with
  | nil => cases hg
  | cons a rest ih =>
    rw [List.map_cons, List.nodup_cons] at hnd
    rcases List.mem_cons.1 hg with rfl | hgr
    · rw [List.filter_cons_of_pos (by simp)]
      rw [List.filter_eq_nil_iff.2 (fun b hb => ?_)]
      intro hbt
      have hbt' : b.type = g.type := by simpa using hbt
      exact hnd.1 (hbt' ▸ List.mem_map.2 ⟨b, hb, rfl⟩)
    · have hat : (a.type == g.type) = false := by
        refine bool_eq_false (fun h => ?_)
        have h' : a.type = g.type := by simpa using h
        refine hnd.1 ?_
        rw [h']
        exact List.mem_map.2 ⟨g, hgr, rfl⟩
      rw [List.filter_cons_of_neg (by simp [hat])]
      exact ih hnd.2 hgr

theorem codesFor_eq_of_mem (gs : List IncidentTypeGroup)
    (hnd : (gs.map (fun g => g.type)).Nodup) (g : IncidentTypeGroup) (hg : g ∈ gs) :
    codesFor g.type gs = g.codes := by
  unfold codesFor
  rw [filter_type_singleton gs hnd g hg]
  simp

theorem codesFor_insertCode (acc : List IncidentTypeGroup) (c : Code) (t : String)
    (hnd : (acc.map (fun g => g.type)).Nodup) :
    codesFor t (insertCode acc c) =
      codesFor t acc ++ (if (c.type == t) = true then [c.code] else []) := by
  unfold insertCode
  by_cases hhas : (acc.any fun g => g.type == c.type) = true
  · rw [if_pos hhas]
    obtain ⟨g0, hg0, hgt⟩ := List.any_eq_true.1 hhas
    have hg0t : g0.type = c.type := by simpa using hgt
    have hcomp : ((fun g2 : IncidentTypeGroup => g2.type == t) ∘
        (fun g => if (g.type == c.type) = true then
          { g with codes := g.codes ++ [c.code] } else g)) =
        fun g : IncidentTypeGroup => g.type == t := by
      funext g
      by_cases hgc : (g.type == c.type) = true
      · simp only [Function.comp_apply, if_pos hgc]
      · simp only [Function.comp_apply, if_neg hgc]
    by_cases hct : (c.type == t) = true
    · have hctt : c.type = t := by simpa using hct
      rw [if_pos hct]
      unfold codesFor
      rw [List.filter_map, hcomp]
      have hsing : acc.filter (fun g => g.type == t) = [g0] := by
        have hs := filter_type_singleton acc hnd g0 hg0
        rw [hg0t, hctt] at hs
        exact hs
      rw [hsing]
      simp [hg0t, hct]
    · rw [if_neg hct, List.append_nil]
      unfold codesFor
      rw [List.filter_map, hcomp]
      congr 1
      rw [List.map_map]
      refine List.map_congr_left (fun g hgmem => ?_)
      have hgt2 : (g.type == t) = true := (List.mem_filter.1 hgmem).2
      have hgc : (g.type == c.type) = false := by
        refine bool_eq_false (fun h => ?_)
        have h1 : g.type = c.type := by simpa using h
        have h2 : g.type = t := by simpa using hgt2
        exact absurd (by rw [← h1, h2] : c.type = t) (by simpa using hct)
      show (if (g.type == c.type) = true then
          { g with codes := g.codes ++ [c.code] } else g).codes = g.codes
      rw [if_neg (by simp [hgc])]
  · rw [if_neg hhas]
    unfold codesFor
    rw [List.filter_append, List.map_append, List.flatten_append]
    congr 1
    by_cases hct : (c.type == t) = true
    · simp [hct]
    · simp [hct]

theorem codesFor_foldl (data : List Code) (t : String) :
    ∀ acc, (acc.map (fun g => g.type)).Nodup →
      codesFor t (data.foldl insertCode acc) =
        codesFor t acc ++ (data.filter (fun c => c.type == t)).map (fun c => c.code) := by
  induction data with
  | nil =>
    intro acc _
    simp
  | cons c cs ih =>
    intro acc h
    rw [List.foldl_cons, ih _ (insertCode_types_nodup acc c h),
      codesFor_insertCode acc c t h, List.filter_cons]
    by_cases hct : (c.type == t) = true
    · rw [if_pos hct, if_pos hct, List.map_cons, List.append_assoc]
      rfl
    · rw [if_neg hct, if_neg hct, List.append_nil]

/-- C4 counterexample: `loadCodes` does not deduplicate codes — a
duplicated input row keeps both copies in the group ([1, 1] is not
nodup) — and a code value occurring under two types appears in two
groups (here code 1 is in both the Assault and the Theft group). -/
theorem c4_counterexample :
    loadCodes [⟨1, "Theft"⟩, ⟨1, "Theft"⟩, ⟨1, "Assault"⟩] =
      [⟨"Assault", [1], true⟩, ⟨"Theft", [1, 1], true⟩] ∧
    ¬ ([1, 1] : List ℤ).Nodup ∧
    (1 : ℤ) ∈ ([1] : List ℤ) ∧ (1 : ℤ) ∈ ([1, 1] : List ℤ) := by
  refine ⟨by decide, by decide, by decide, by decide⟩

/-- C4 (amended): `loadCodes` produces groups sorted lexicographically
ascending by type, each with `selected = true`, where the codes of each
group are the codes of that type in fetched order with duplicates
preserved (deduplication holds only when the input has none), a group
type exists exactly for the fetched types, and a code value can appear
in two groups only when the input assigns it two types. -/
theorem c4_loadCodes (data : List Code) :
    List.Sorted groupLe (loadCodes data) ∧
    ((loadCodes data).map (fun g => g.type)).Nodup ∧
    (∀ g ∈ loadCodes data, g.selected = true) ∧
    (∀ g ∈ loadCodes data,
      g.codes = (data.filter (fun c => c.type == g.type)).map (fun c => c.code)) ∧
    (∀ t : String, (∃ g ∈ loadCodes data, g.type = t) ↔ ∃ c ∈ data, c.type = t) := by
  have hperm := List.perm_insertionSort groupLe (data.foldl insertCode [])
  have hnodup0 : ((data.foldl insertCode []).map (fun g => g.type)).Nodup :=
    foldl_insertCode_types_nodup data [] (by simp)
  have hnodup : ((loadCodes data).map (fun g => g.type)).Nodup := by
    unfold loadCodes
    exact ((hperm.map (fun g => g.type)).nodup_iff).2 hnodup0
  refine ⟨List.sorted_insertionSort groupLe _, hnodup, ?_, ?_, ?_⟩
  · intro g hg
    exact foldl_insertCode_selected data [] (by simp) g (hperm.mem_iff.1 hg)
  · intro g hg
    have hg0 : g ∈ data.foldl insertCode [] := hperm.mem_iff.1 hg
    have heq := codesFor_eq_of_mem _ hnodup0 g hg0
    rw [← heq, codesFor_foldl data g.type [] (by simp)]
    simp [codesFor]
  · intro t
    constructor
    · rintro ⟨g, hg, rfl⟩
      have hg0 : g ∈ data.foldl insertCode [] := hperm.mem_iff.1 hg
      have hmem : g.type ∈ (data.foldl insertCode []).map (fun g => g.type) :=
        List.mem_map.2 ⟨g, hg0, rfl⟩
      rw [foldl_insertCode_types_mem data [] g.type] at hmem
      rcases hmem with hmem | hmem
      · simp at hmem
      · exact List.mem_map.1 hmem
    · rintro ⟨c, hc, rfl⟩
      have hmem : c.type ∈ (data.foldl insertCode []).map (fun g => g.type) := by
        rw [foldl_insertCode_types_mem data [] c.type]
        exact Or.inr (List.mem_map.2 ⟨c, hc, rfl⟩)
      obtain ⟨g, hg0, hgt⟩ := List.mem_map.1 hmem
      exact ⟨g, hperm.mem_iff.2 hg0, hgt⟩

/-- C4 witness: the scenario input produces the alphabetically sorted
groups `[{Assault, [3]}, {Theft, [1, 2]}]`, and the amended theorem's
clauses instantiate on it: the Theft group's codes are the codes of
type Theft in input order, and the Assault group is selected. -/
theorem c4_loadCodes_witness :
    loadCodes [⟨1, "Theft"⟩, ⟨2, "Theft"⟩, ⟨3, "Assault"⟩] =
      [⟨"Assault", [3], true⟩, ⟨"Theft", [1, 2], true⟩] ∧
    (⟨"Theft", [1, 2], true⟩ : IncidentTypeGroup).codes =
      (([⟨1, "Theft"⟩, ⟨2, "Theft"⟩, ⟨3, "Assault"⟩] : List Code).filter
        (fun c => c.type == (⟨"Theft", [1, 2], true⟩ : IncidentTypeGroup).type)).map
        (fun c => c.code) ∧
    (⟨"Assault", [3], true⟩ : IncidentTypeGroup).selected = true := by
  have h := c4_loadCodes [⟨1, "Theft"⟩, ⟨2, "Theft"⟩, ⟨3, "Assault"⟩]
  exact ⟨by decide, h.2.2.2.1 _ (by decide), h.2.2.1 _ (by decide)⟩

/-! ### C8: the query parameters of `fetchIncidents`. -/

theorem dedupKeepFirst_aux (l : List ℤ) :
    ∀ acc : List ℤ, acc.Nodup →
      (l.foldl (fun acc x => if acc.contains x then acc else acc ++ [x]) acc).Nodup ∧
      (∀ x, x ∈ l.foldl (fun acc x => if acc.contains x then acc else acc ++ [x]) acc ↔
        x ∈ acc ∨ x ∈ l) := by
  induction l with
  | nil =>
    intro acc h
    exact ⟨h, fun x => by simp⟩
  | cons y t ih =>
    intro acc h
    simp only [List.foldl_cons]
    by_cases hy : acc.contains y = true
    · rw [if_pos hy]
      obtain ⟨h1, h2⟩ := ih acc h
      refine ⟨h1, fun x => ?_⟩
      rw [h2]
      constructor
      · rintro (hx | hx)
        · exact Or.inl hx
        · exact Or.inr (List.mem_cons_of_mem y hx)
      · rintro (hx | hx)
        · exact Or.inl hx
        · rcases List.mem_cons.1 hx with rfl | hx
          · exact Or.inl (by simpa using hy)
          · exact Or.inr hx
    · rw [if_neg hy]
      have hnotin : ¬ y ∈ acc := by simpa using hy
      have hnd : (acc ++ [y]).Nodup := by
        rw [List.nodup_append]
        refine ⟨h, List.nodup_singleton _, fun x hx hx1 => ?_⟩
        rw [List.mem_singleton] at hx1
        subst hx1
        exact hnotin hx
      obtain ⟨h1, h2⟩ := ih (acc ++ [y]) hnd
      refine ⟨h1, fun x => ?_⟩
      rw [h2, List.mem_append, List.mem_singleton, List.mem_cons]
      tauto

theorem dedupKeepFirst_nodup (l : List ℤ) : (dedupKeepFirst l).Nodup :=
  (dedupKeepFirst_aux l [] (by simp)).1

theorem mem_dedupKeepFirst (l : List ℤ) (x : ℤ) : x ∈ dedupKeepFirst l ↔ x ∈ l := by
  rw [dedupKeepFirst, (dedupKeepFirst_aux l [] (by simp)).2 x]
  simp

theorem mem_codesUnion (sel : List String) (groups : List IncidentTypeGroup) :
    ∀ (acc : List ℤ) (x : ℤ),
      (x ∈ groups.foldl
          (fun acc g => if sel.contains g.type then acc ++ g.codes else acc) acc ↔
        x ∈ acc ∨ ∃ g ∈ groups, sel.contains g.type = true ∧ x ∈ g.codes) := by
  induction groups with
  | nil =>
    intro acc x
    simp
  | cons g gs ih =>
    intro acc x
    simp only [List.foldl_cons]
    by_cases hg : sel.contains g.type = true
    · rw [if_pos hg, ih, List.mem_append]
      constructor
      · rintro ((hx | hx) | ⟨g2, hg2, hsel2, hx⟩)
        · exact Or.inl hx
        · exact Or.inr ⟨g, List.mem_cons_self _ _, hg, hx⟩
        · exact Or.inr ⟨g2, List.mem_cons_of_mem g hg2, hsel2, hx⟩
      · rintro (hx | ⟨g2, hg2, hsel2, hx⟩)
        · exact Or.inl (Or.inl hx)
        · rcases List.mem_cons.1 hg2 with rfl | hg2
          · exact Or.inl (Or.inr hx)
          · exact Or.inr ⟨g2, hg2, hsel2, hx⟩
    · rw [if_neg hg, ih]
      constructor
      · rintro (hx | ⟨g2, hg2, hsel2, hx⟩)
        · exact Or.inl hx
        · exact Or.inr ⟨g2, List.mem_cons_of_mem g hg2, hsel2, hx⟩
      · rintro (hx | ⟨g2, hg2, hsel2, hx⟩)
        · exact Or.inl hx
        · rcases List.mem_cons.1 hg2 with rfl | hg2
          · exact absurd hsel2 hg
          · exact Or.inr ⟨g2, hg2, hsel2, hx⟩

theorem selectedCodesOf_sorted_nodup (groups : List IncidentTypeGroup) :
    List.Sorted (· ≤ ·) (selectedCodesOf groups) ∧ (selectedCodesOf groups).Nodup := by
  simp only [selectedCodesOf]
  by_cases h : ((groups.filter (fun g => g.selected)).map (fun g => g.type)).length > 0
  · rw [if_pos h]
    exact ⟨List.sorted_insertionSort _ _,
      ((List.perm_insertionSort _ _).nodup_iff).2 (dedupKeepFirst_nodup _)⟩
  · rw [if_neg h]
    exact ⟨List.sorted_nil, List.nodup_nil⟩

theorem mem_selectedCodesOf (groups : List IncidentTypeGroup)
    (hnd : (groups.map (fun g => g.type)).Nodup) (x : ℤ) :
    x ∈ selectedCodesOf groups ↔ ∃ g ∈ groups, g.selected = true ∧ x ∈ g.codes := by
  simp only [selectedCodesOf]
  by_cases h : ((groups.filter (fun g => g.selected)).map (fun g => g.type)).length > 0
  · rw [if_pos h, (List.perm_insertionSort _ _).mem_iff, mem_dedupKeepFirst,
      mem_codesUnion _ groups [] x]
    simp only [List.not_mem_nil, false_or]
    constructor
    · rintro ⟨g, hg, hselc, hx⟩
      have hmem : g.type ∈ (groups.filter (fun g => g.selected)).map (fun g => g.type) := by
        simpa using hselc
      obtain ⟨g2, hg2, hg2t⟩ := List.mem_map.1 hmem
      have hg2mem : g2 ∈ groups := (List.mem_filter.1 hg2).1
      have hg2sel : g2.selected = true := (List.mem_filter.1 hg2).2
      have heq : g2 = g := List.inj_on_of_nodup_map hnd hg2mem hg hg2t
      exact ⟨g, hg, heq ▸ hg2sel, hx⟩
    · rintro ⟨g, hg, hgsel, hx⟩
      refine ⟨g, hg, ?_, hx⟩
      have hmem : g.type ∈ (groups.filter (fun g => g.selected)).map (fun g => g.type) :=
        List.mem_map.2 ⟨g, List.mem_filter.2 ⟨hg, hgsel⟩, rfl⟩
      simpa using hmem
  · rw [if_neg h]
    simp only [List.not_mem_nil, false_iff]
    rintro ⟨g, hg, hgsel, hx⟩
    refine h ?_
    have hmem : g.type ∈ (groups.filter (fun g => g.selected)).map (fun g => g.type) :=
      List.mem_map.2 ⟨g, List.mem_filter.2 ⟨hg, hgsel⟩, rfl⟩
    exact List.length_pos.2 (List.ne_nil_of_mem hmem)

theorem selectedCodesOf_empty (groups : List IncidentTypeGroup)
    (h : ∀ g ∈ groups, g.selected = false) : selectedCodesOf groups = [] := by
  have hf : groups.filter (fun g => g.selected) = [] :=
    List.filter_eq_nil_iff.2 (fun g hg => by simp [h g hg])
  simp [selectedCodesOf, hf]

/-- C8 counterexample: with `maxIncidents = 5/2` — a positive number
that is not an integer (its reduced denominator is 2, not 1) — the
issued request carries `limit = 5/2` rather than the default 1000 the
claim prescribes for every non-integer. -/
theorem c8_counterexample :
    ((fetchIncidents [] [] [sampleSelA] [] ⟨"", "", 5/2⟩ []).request.map
      (fun r => r.limit)) = some (5/2) ∧
    (5/2 : ℚ) ≠ 1000 ∧ (5/2 : ℚ).den = 2 := by
  refine ⟨?_, by norm_num, by norm_num⟩
  simp only [fetchIncidents]
  rw [if_neg (by decide)]
  dsimp only
  rw [if_pos (by norm_num : (5/2 : ℚ) > 0)]
  rfl

/-- C8 (amended): the request's limit equals `maxIncidents` whenever
`maxIncidents > 0` — including positive non-integers, which pass
through — and equals the default 1000 otherwise; the code parameter is
omitted exactly when the selected-code list is empty (in particular
when no group is selected), and when present it is the comma-joined
sorted deduplicated selected code list. -/
theorem c8_request_params (codes : List Code) (groups : List IncidentTypeGroup)
    (ns : List Neighborhood) (visible : List ℤ) (filters : Filters)
    (server : List IncidentRow) (req : IncidentRequest)
    (hreq : (fetchIncidents codes groups ns visible filters server).request = some req) :
    (0 < filters.maxIncidents → req.limit = filters.maxIncidents) ∧
    (¬ 0 < filters.maxIncidents → req.limit = 1000) ∧
    ((∀ g ∈ groups, g.selected = false) → req.code = none) ∧
    (∀ s, req.code = some s →
      s = joinComma ((selectedCodesOf groups).map toString) ∧
      List.Sorted (· ≤ ·) (selectedCodesOf groups) ∧
      (selectedCodesOf groups).Nodup ∧
      ((groups.map (fun g => g.type)).Nodup →
        ∀ x : ℤ, (x ∈ selectedCodesOf groups ↔
          ∃ g ∈ groups, g.selected = true ∧ x ∈ g.codes))) := by
  simp only [fetchIncidents] at hreq
  by_cases h0 : ((inViewIds ns visible).length == 0) = true
  · rw [if_pos h0] at hreq
    simp at hreq
  · rw [if_neg h0] at hreq
    dsimp only at hreq
    rw [Option.some.injEq] at hreq
    subst hreq
    refine ⟨?_, ?_, ?_, ?_⟩
    · intro h
      dsimp only
      rw [if_pos h]
    · intro h
      dsimp only
      rw [if_neg h]
    · intro hall
      dsimp only
      rw [selectedCodesOf_empty groups hall]
      simp
    · intro s hs
      dsimp only at hs
      by_cases hlen : (selectedCodesOf groups).length > 0
      · rw [if_pos hlen, Option.some.injEq] at hs
        exact ⟨hs.symm, (selectedCodesOf_sorted_nodup groups).1,
          (selectedCodesOf_sorted_nodup groups).2,
          fun hnd x => mem_selectedCodesOf groups hnd x⟩
      · rw [if_neg hlen] at hs
        cases hs

/-- A selected type group used by the C8 witness. -/
def sampleGroupT : IncidentTypeGroup := ⟨"T", [7, 3], true⟩

/-- C8 witness: with `maxIncidents = 50` and one selected group with
codes `[7, 3]`, the issued request has limit 50 and code parameter
"3,7" — the comma-joined, ascending, deduplicated selected codes. -/
theorem c8_request_params_witness :
    (⟨50, none, none, some "3,7", "1"⟩ : IncidentRequest).limit = 50 ∧
    "3,7" = joinComma ((selectedCodesOf [sampleGroupT]).map toString) ∧
    List.Sorted (· ≤ ·) (selectedCodesOf [sampleGroupT]) ∧
    (selectedCodesOf [sampleGroupT]).Nodup ∧
    ((3 : ℤ) ∈ selectedCodesOf [sampleGroupT] ↔
      ∃ g ∈ [sampleGroupT], g.selected = true ∧ (3 : ℤ) ∈ g.codes) := by
  have hreq : (fetchIncidents [] [sampleGroupT] [sampleSelA] [] ⟨"", "", 50⟩ []).request =
      some ⟨50, none, none, some "3,7", "1"⟩ := by
    simp only [fetchIncidents]
    rw [if_neg (by decide)]
    dsimp only
    rw [if_pos (by norm_num : (50 : ℚ) > 0)]
    decide
  have h := c8_request_params [] [sampleGroupT] [sampleSelA] [] ⟨"", "", 50⟩ [] _ hreq
  exact ⟨h.1 (by norm_num), (h.2.2.2 "3,7" rfl).1, (h.2.2.2 "3,7" rfl).2.1,
    (h.2.2.2 "3,7" rfl).2.2.1, (h.2.2.2 "3,7" rfl).2.2.2 (by decide) 3⟩

/-! ### C9: new-incident submission (`submitNewIncident`, `App.vue`
lines 524-578). -/

/-- Digit run to a natural number. -/
def digitsToNat (l : List Char) : ℕ :=
  l.foldl (fun n c => 10 * n + (c.toNat - 48)) 0

/-- Unsigned decimal literal parser (integer part, optional fractional
part). -/
def parseUnsignedDec (l : List Char) : Option ℚ :=
  let ip := l.takeWhile Char.isDigit
  let rest := l.drop ip.length
  match rest with
  | [] => if ip.isEmpty then none else some (digitsToNat ip : ℚ)
  | '.' :: fr =>
    if fr.all Char.isDigit && (!ip.isEmpty || !fr.isEmpty) then
      some ((digitsToNat ip : ℚ) + (digitsToNat fr : ℚ) / (10 : ℚ) ^ fr.length)
    else none
  | _ => none

/-- Signed decimal literal parser. -/
def parseDecimal (l : List Char) : Option ℚ :=
  match l with
  | '-' :: r => (parseUnsignedDec r).map (fun q => -q)
  | '+' :: r => parseUnsignedDec r
  | _ => parseUnsignedDec l

/-- JavaScript `Number(...)` coercion on the string values this form
produces: an empty or whitespace-only string coerces to 0, a signed
decimal literal parses to its value, and anything else is NaN
(`none`); exotic syntaxes (hex, exponents, Infinity) do not occur in
this app's inputs and also map to `none`. -/
def jsNumber (s : String) : Option ℚ :=
  let t := jsTrim s
  if t = "" then some 0 else parseDecimal t.data

/-- The `newIncident` reactive form; each field is the string value
after the source's `String(...)` coercion. -/
structure NewIncidentForm where
  case_number : String
  date : String
  time : String
  code : String
  incident : String
  police_grid : String
  neighborhood_number : String
  block : String
deriving DecidableEq

/-- The eight required field values in the order the source checks them. -/
def requiredFieldValues (f : NewIncidentForm) : List String :=
  [f.case_number, f.date, f.time, f.code, f.incident, f.police_grid,
   f.neighborhood_number, f.block]

/-- The JSON body of `PUT /new-incident`. -/
structure NewIncidentPayload where
  case_number : String
  date : String
  time : String
  code : Option ℚ
  incident : String
  police_grid : Option ℚ
  neighborhood_number : Option ℚ
  block : String
deriving DecidableEq

/-- Error taxonomy of the submit handler. -/
inductive SubmitError
  | config
  | validation
  | mutation
deriving DecidableEq

/-- Observable outcome of one submission: the surfaced error (if any),
the request body sent (if any; `none` means no network call), and
whether the incident list was refreshed afterwards. -/
structure SubmitOutcome where
  error : Option SubmitError
  request : Option NewIncidentPayload
  refreshed : Bool
deriving DecidableEq

/-- The payload built on the success path: `case_number`, `incident`
and `block` trimmed; `date` and `time` passed through; `code`,
`police_grid` and `neighborhood_number` coerced with `Number(...)`. -/
def payloadOf (form : NewIncidentForm) : NewIncidentPayload :=
  { case_number := jsTrim form.case_number
    date := form.date
    time := form.time
    code := jsNumber form.code
    incident := jsTrim form.incident
    police_grid := jsNumber form.police_grid
    neighborhood_number := jsNumber form.neighborhood_number
    block := jsTrim form.block }

/-- `submitNewIncident()`: a missing base URL is a config error; any
required field empty after trimming is a validation error (the source
returns at the first such field, which is observationally the same as
this any-check); otherwise the payload is sent, and on server success
the incident list is refreshed. -/
def submitNewIncident (apiUrl : String) (form : NewIncidentForm)
    (serverOk : Bool) : SubmitOutcome :=
  if apiUrl = "" then ⟨some SubmitError.config, none, false⟩
  else if (requiredFieldValues form).any (fun s => jsTrim s == "") then
    ⟨some SubmitError.validation, none, false⟩
  else if serverOk then ⟨none, some (payloadOf form), true⟩
  else ⟨some SubmitError.mutation, some (payloadOf form), false⟩

/-- C9: in a configured session, submission fails with a validation
error and no network call exactly when one of the eight fields is empty
after trimming; when all are non-empty the payload with the trimmed and
number-coerced fields is sent and the incident list is refreshed after
a successful submission. -/
theorem c9_submitNewIncident (apiUrl : String) (form : NewIncidentForm)
    (serverOk : Bool) (happy : apiUrl ≠ "") :
    (((submitNewIncident apiUrl form serverOk).error = some SubmitError.validation ∧
      (submitNewIncident apiUrl form serverOk).request = none) ↔
      ∃ s ∈ requiredFieldValues form, jsTrim s = "") ∧
    ((∀ s ∈ requiredFieldValues form, jsTrim s ≠ "") →
      (submitNewIncident apiUrl form serverOk).request = some (payloadOf form) ∧
      (submitNewIncident apiUrl form serverOk).refreshed = serverOk) := by
  unfold submitNewIncident
  rw [if_neg happy]
  by_cases hany : ((requiredFieldValues form).any (fun s => jsTrim s == "")) = true
  · rw [if_pos hany]
    obtain ⟨s, hs, hse⟩ := List.any_eq_true.1 hany
    have hse' : jsTrim s = "" := by simpa using hse
    constructor
    · exact ⟨fun _ => ⟨s, hs, hse'⟩, fun _ => ⟨rfl, rfl⟩⟩
    · intro hall
      exact absurd hse' (hall s hs)
  · rw [if_neg hany]
    have hnone : ¬ ∃ s ∈ requiredFieldValues form, jsTrim s = "" := by
      rintro ⟨s, hs, hse⟩
      exact hany (List.any_eq_true.2 ⟨s, hs, by simp [hse]⟩)
    constructor
    · constructor
      · rintro ⟨herr, -⟩
        exfalso
        cases hso : serverOk
        · rw [hso] at herr
          simp at herr
        · rw [hso] at herr
          simp at herr
      · intro hex
        exact absurd hex hnone
    · intro _
      cases serverOk
      · exact ⟨rfl, rfl⟩
      · exact ⟨rfl, rfl⟩

/-- A fully filled sample form. -/
def sampleForm : NewIncidentForm :=
  { case_number := " 19-2 ", date := "2019-10-02", time := "01:30",
    code := "9954", incident := "Theft", police_grid := "87",
    neighborhood_number := "2", block := "98X UNIVERSITY AV W" }

/-- The sample form with a whitespace-only code field. -/
def sampleFormMissing : NewIncidentForm :=
  { sampleForm with code := "  " }

/-- C9 witness: the filled form is submitted (payload sent, list
refreshed); the form with a whitespace-only code field fails with a
validation error and no network call. -/
theorem c9_submitNewIncident_witness :
    (submitNewIncident "http://localhost:8000" sampleForm true).request =
      some (payloadOf sampleForm) ∧
    (submitNewIncident "http://localhost:8000" sampleForm true).refreshed = true ∧
    (submitNewIncident "http://localhost:8000" sampleFormMissing true).error =
      some SubmitError.validation ∧
    (submitNewIncident "http://localhost:8000" sampleFormMissing true).request = none := by
  have h1 := c9_submitNewIncident "http://localhost:8000" sampleForm true (by decide)
  have h2 := c9_submitNewIncident "http://localhost:8000" sampleFormMissing true (by decide)
  have hfull : ∀ s ∈ requiredFieldValues sampleForm, jsTrim s ≠ "" := by decide
  have hmiss : ∃ s ∈ requiredFieldValues sampleFormMissing, jsTrim s = "" :=
    ⟨"  ", by decide, by decide⟩
  exact ⟨(h1.2 hfull).1, (h1.2 hfull).2, (h2.1.2 hmiss).1, (h2.1.2 hmiss).2⟩

/-! ### C6 and C10: block-address normalization and the geocode cache
(`normalizeBlockAddress` lines 617-627, `geocodeBlock` lines 632-656). -/

/-- Line terminators that JavaScript `.` (without the `s` flag) refuses
to match (ASCII part). -/
def isNewlineChar (c : Char) : Bool :=
  c = '\n' || c = '\r'

/-- The regex match `addr.match(/^(\d+X)\s+(.*)$/i)`: a nonempty leading
digit run, one `X` or `x` (the `i` flag), at least one whitespace
character, and a remainder that `.*$` can match.  The greedy `\s+` with
backtracking succeeds exactly when the remainder after the maximal
whitespace run is free of line terminators, which is what this
embedding checks.  Returns capture groups 1 and 2. -/
def matchHouseNumberX (addr : List Char) : Option (List Char × List Char) :=
  let ds := addr.takeWhile Char.isDigit
  match addr.drop ds.length with
  | x :: r2 =>
    if (x == 'X' || x == 'x') && !ds.isEmpty then
      let ws := r2.takeWhile jsIsSpace
      let rest := r2.drop ws.length
      if !ws.isEmpty && rest.all (fun c => !isNewlineChar c) then
        some (ds ++ [x], rest)
      else none
    else none
  | [] => none

/-- `m[1].replace('X', '0')`: only the first literal uppercase `X` is
replaced (a lowercase `x` is left untouched). -/
def replaceFirstUpperX : List Char → List Char
  | [] => []
  | c :: r => if c == 'X' then '0' :: r else c :: replaceFirstUpperX r

/-- `normalizeBlockAddress(block)`: trim, rewrite a matched leading
house-number token with its `X` replaced by `0` (collapsing the matched
whitespace to the template's single space), and append the fixed
locality suffix. -/
def normalizeBlockAddress (block : String) : String :=
  let addr := jsTrim block
  let addr2 : String :=
    match matchHouseNumberX addr.data with
    | some (tok, rest) => ⟨replaceFirstUpperX tok ++ (' ' :: rest)⟩
    | none => addr
  addr2 ++ ", Saint Paul, MN"

/-- `geocodeCache[block]` lookup. -/
def cacheGet (cache : List (String × (ℚ × ℚ))) (k : String) : Option (ℚ × ℚ) :=
  (cache.find? (fun p => p.1 == k)).map (fun p => p.2)

/-- Observable outcome of one `geocodeBlock` call: the returned
coordinate, the cache afterwards, and the geocoding query string sent
(`none` means no network call). -/
structure GeocodeOutcome where
  result : Option (ℚ × ℚ)
  cache : List (String × (ℚ × ℚ))
  query : Option String
deriving DecidableEq

/-- `geocodeBlock(block)`: empty blocks resolve to nothing; a cache hit
(keyed by the ORIGINAL block string) returns the cached coordinate with
no network call; otherwise the normalized address is queried, a
successful result is clamped and cached under the original block
string, and a failure returns nothing and caches nothing. -/
def geocodeBlock (cache : List (String × (ℚ × ℚ))) (block : String)
    (server : Option (ℚ × ℚ)) : GeocodeOutcome :=
  if block = "" then ⟨none, cache, none⟩
  else
    match cacheGet cache block with
    | some c => ⟨some c, cache, none⟩
    | none =>
      match server with
      | some (lat, lng) =>
        let c := clampLatLng lat lng
        ⟨some c, cache ++ [(block, c)], some (normalizeBlockAddress block)⟩
      | none => ⟨none, cache, some (normalizeBlockAddress block)⟩

/-- C6 counterexample: with the normalized string
"980 UNIVERSITY AV W, Saint Paul, MN" already a cache key, resolving
the block "98X UNIVERSITY AV W" still issues a geocoding query, because
the cache-hit guard keys on the original block string, not the
normalized one as the claim states. -/
theorem c6_counterexample :
    cacheGet [("980 UNIVERSITY AV W, Saint Paul, MN", ((45 : ℚ), (-93 : ℚ)))]
        (normalizeBlockAddress "98X UNIVERSITY AV W") ≠ none ∧
    (geocodeBlock [("980 UNIVERSITY AV W, Saint Paul, MN", ((45 : ℚ), (-93 : ℚ)))]
        "98X UNIVERSITY AV W" none).query ≠ none := by
  refine ⟨by decide, by decide⟩

/-- C6 (amended): the scenario normalization holds; a geocoding query is
issued exactly when the block is non-empty and the ORIGINAL block
string is not already a cache key; the query carries the normalized
address; a successful result is clamped into the bounding box and
cached under the original block string; a failure returns no result and
adds no cache entry; a cache hit returns the cached value untouched. -/
theorem c6_geocodeBlock (cache : List (String × (ℚ × ℚ))) (block : String)
    (server : Option (ℚ × ℚ)) :
    normalizeBlockAddress "98X UNIVERSITY AV W" =
      "980 UNIVERSITY AV W, Saint Paul, MN" ∧
    ((geocodeBlock cache block server).query ≠ none ↔
      block ≠ "" ∧ cacheGet cache block = none) ∧
    ((geocodeBlock cache block server).query ≠ none →
      (geocodeBlock cache block server).query = some (normalizeBlockAddress block)) ∧
    (∀ lat lng, block ≠ "" → cacheGet cache block = none → server = some (lat, lng) →
      (geocodeBlock cache block server).result = some (clampLatLng lat lng) ∧
      (geocodeBlock cache block server).cache = cache ++ [(block, clampLatLng lat lng)]) ∧
    (block ≠ "" → cacheGet cache block = none → server = none →
      (geocodeBlock cache block server).result = none ∧
      (geocodeBlock cache block server).cache = cache) ∧
    (∀ c, block ≠ "" → cacheGet cache block = some c →
      (geocodeBlock cache block server).result = some c ∧
      (geocodeBlock cache block server).cache = cache ∧
      (geocodeBlock cache block server).query = none) := by
  refine ⟨by decide, ?_, ?_, ?_, ?_, ?_⟩
  · by_cases hb : block = ""
    · simp [geocodeBlock, hb]
    · cases hc : cacheGet cache block with
      | some c => simp [geocodeBlock, hb, hc]
      | none =>
        cases server with
        | some p =>
          cases p with
          | mk lat lng => simp [geocodeBlock, hb, hc]
        | none => simp [geocodeBlock, hb, hc]
  · by_cases hb : block = ""
    · simp [geocodeBlock, hb]
    · cases hc : cacheGet cache block with
      | some c => simp [geocodeBlock, hb, hc]
      | none =>
        cases server with
        | some p =>
          cases p with
          | mk lat lng => simp [geocodeBlock, hb, hc]
        | none => simp [geocodeBlock, hb, hc]
  · intro lat lng hb hc hs
    subst hs
    simp [geocodeBlock, hb, hc]
  · intro hb hc hs
    subst hs
    simp [geocodeBlock, hb, hc]
  · intro c hb hc
    simp [geocodeBlock, hb, hc]

/-- C6 witness: on an empty cache, resolving "98X UNIVERSITY AV W" with
a successful geocoder reply (50, -92) issues the normalized query,
returns the clamped coordinate, and stores it under the original block
string. -/
theorem c6_geocodeBlock_witness :
    (geocodeBlock [] "98X UNIVERSITY AV W" (some (50, -92))).query =
      some (normalizeBlockAddress "98X UNIVERSITY AV W") ∧
    (geocodeBlock [] "98X UNIVERSITY AV W" (some (50, -92))).result =
      some (clampLatLng 50 (-92)) ∧
    (geocodeBlock [] "98X UNIVERSITY AV W" (some (50, -92))).cache =
      [("98X UNIVERSITY AV W", clampLatLng 50 (-92))] ∧
    normalizeBlockAddress "98X UNIVERSITY AV W" =
      "980 UNIVERSITY AV W, Saint Paul, MN" := by
  have h := c6_geocodeBlock [] "98X UNIVERSITY AV W" (some (50, -92))
  refine ⟨h.2.2.1 (by decide), (h.2.2.2.1 50 (-92) (by decide) (by decide) rfl).1,
    (h.2.2.2.1 50 (-92) (by decide) (by decide) rfl).2, h.1⟩

theorem digit_ne_upperX (c : Char) (h : c.isDigit = true) : (c == 'X') = false := by
  refine bool_eq_false (fun hx => ?_)
  have hc : c = 'X' := by simpa using hx
  subst hc
  exact absurd h (by decide)

theorem digit_not_space (c : Char) (h : c.isDigit = true) : jsIsSpace c = false := by
  refine bool_eq_false (fun hs => ?_)
  simp only [jsIsSpace, Bool.or_eq_true, decide_eq_true_eq] at hs
  rcases hs with ((((h1 | h1) | h1) | h1) | h1) | h1 <;> subst h1 <;>
    exact absurd h (by decide)

theorem takeWhile_all_append (p : Char → Bool) :
    ∀ (l₁ : List Char) (x : Char) (l₂ : List Char),
      (∀ c ∈ l₁, p c = true) → p x = false →
      (l₁ ++ x :: l₂).takeWhile p = l₁ := by
  intro l₁
  induction l₁ with
  | nil =>
    intro x l₂ _ hx
    simp [List.takeWhile_cons, hx]
  | cons a t ih =>
    intro x l₂ hall hx
    simp only [List.cons_append, List.takeWhile_cons,
      hall a (List.mem_cons_self _ _), if_true]
    rw [ih x l₂ (fun c hc => hall c (List.mem_cons_of_mem a hc)) hx]

theorem dropWhile_eq_self_of_head (p : Char → Bool) (l : List Char)
    (h : ∀ c ∈ l.take 1, p c = false) : l.dropWhile p = l := by
  cases l with
  | nil => rfl
  | cons a t => simp [List.dropWhile_cons, h a (by simp)]

theorem jsTrimList_eq_self (l : List Char)
    (h1 : ∀ c ∈ l.take 1, jsIsSpace c = false)
    (h2 : ∀ c ∈ l.reverse.take 1, jsIsSpace c = false) :
    jsTrimList l = l := by
  unfold jsTrimList
  rw [dropWhile_eq_self_of_head _ l h1, dropWhile_eq_self_of_head _ l.reverse h2,
    List.reverse_reverse]

theorem replaceFirstUpperX_eq_self (l : List Char)
    (h : ∀ c ∈ l, (c == 'X') = false) : replaceFirstUpperX l = l := by
  induction l with
  | nil => rfl
  | cons a t ih =>
    unfold replaceFirstUpperX
    rw [if_neg (by simp [h a (List.mem_cons_self _ _)]),
      ih (fun c hc => h c (List.mem_cons_of_mem a hc))]

theorem take_one_append (A B : List Char) (h : A ≠ []) :
    (A ++ B).take 1 = A.take 1 := by
  cases A with
  | nil => exact absurd rfl h
  | cons a t => rfl

/-- C10: for a block of the form `<digits>x<whitespace><text>` (leading
digit run, lowercase `x`, then whitespace and more text with no line
terminators, not starting or ending in whitespace), the pattern matches
case-insensitively but the lowercase `x` is NOT replaced: the result is
the token kept verbatim, a single space, the text, and the locality
suffix. -/
theorem c10_lowercase_x_preserved (ds ws rest : List Char)
    (hds : ds ≠ []) (hdsd : ∀ c ∈ ds, c.isDigit = true)
    (hws : ws ≠ []) (hwss : ∀ c ∈ ws, jsIsSpace c = true)
    (hrne : rest ≠ [])
    (hrhead : ∀ c ∈ rest.take 1, jsIsSpace c = false)
    (hrlast : ∀ c ∈ rest.reverse.take 1, jsIsSpace c = false)
    (hrnl : ∀ c ∈ rest, isNewlineChar c = false) :
    normalizeBlockAddress ⟨ds ++ 'x' :: (ws ++ rest)⟩ =
      (⟨ds ++ 'x' :: ' ' :: rest⟩ : String) ++ ", Saint Paul, MN" := by
  cases rest with
  | nil => exact absurd rfl hrne
  | cons rh rt =>
  have htrimL : jsTrimList (ds ++ 'x' :: (ws ++ rh :: rt)) = ds ++ 'x' :: (ws ++ rh :: rt) := by
    refine jsTrimList_eq_self _ ?_ ?_
    · rw [take_one_append ds _ hds]
      intro c hc
      exact digit_not_space c (hdsd c (List.mem_of_mem_take hc))
    · have hrev : (ds ++ 'x' :: (ws ++ rh :: rt)).reverse =
          (rh :: rt).reverse ++ (ws.reverse ++ 'x' :: ds.reverse) := by
        simp [List.reverse_append, List.reverse_cons, List.append_assoc]
      rw [hrev, take_one_append _ _ (by simp)]
      exact hrlast
  have htW : (ds ++ 'x' :: (ws ++ rh :: rt)).takeWhile Char.isDigit = ds :=
    takeWhile_all_append Char.isDigit ds 'x' (ws ++ rh :: rt) hdsd (by decide)
  have hdsE : ds.isEmpty = false := by
    cases ds with
    | nil => exact absurd rfl hds
    | cons d dt => rfl
  have hwsE : ws.isEmpty = false := by
    cases ws with
    | nil => exact absurd rfl hws
    | cons w wt => rfl
  have htWs : (ws ++ rh :: rt).takeWhile jsIsSpace = ws :=
    takeWhile_all_append jsIsSpace ws rh rt hwss (hrhead rh (by simp))
  have hall : (rh :: rt).all (fun c => !isNewlineChar c) = true :=
    List.all_eq_true.2 (fun c hc => by simp [hrnl c hc])
  have hmatch : matchHouseNumberX (ds ++ 'x' :: (ws ++ rh :: rt)) =
      some (ds ++ ['x'], rh :: rt) := by
    simp only [matchHouseNumberX, htW, List.drop_left]
    rw [if_pos (by simp [hdsE])]
    simp only [htWs, List.drop_left]
    rw [if_pos (by simp [hwsE, hall])]
  have hrep : replaceFirstUpperX (ds ++ ['x']) = ds ++ ['x'] := by
    refine replaceFirstUpperX_eq_self _ (fun c hc => ?_)
    rcases List.mem_append.1 hc with hc | hc
    · exact digit_ne_upperX c (hdsd c hc)
    · rw [List.mem_singleton] at hc
      subst hc
      decide
  show (jsTrim ⟨ds ++ 'x' :: (ws ++ rh :: rt)⟩ |> fun addr =>
      (match matchHouseNumberX addr.data with
        | some (tok, rest) => (⟨replaceFirstUpperX tok ++ (' ' :: rest)⟩ : String)
        | none => addr) ++ ", Saint Paul, MN") = _
  rw [show jsTrim ⟨ds ++ 'x' :: (ws ++ rh :: rt)⟩ = ⟨ds ++ 'x' :: (ws ++ rh :: rt)⟩ from
    congrArg String.mk htrimL]
  dsimp only
  rw [hmatch]
  dsimp only
  rw [hrep]
  have hlist : (ds ++ ['x']) ++ ' ' :: rh :: rt = ds ++ 'x' :: ' ' :: rh :: rt := by
    simp
  rw [hlist]

/-- C10 witness: "98x UNIVERSITY AV W" keeps its lowercase x: the
result is "98x UNIVERSITY AV W, Saint Paul, MN", not "980 ...". -/
theorem c10_lowercase_x_preserved_witness :
    normalizeBlockAddress "98x UNIVERSITY AV W" =
      "98x UNIVERSITY AV W, Saint Paul, MN" := by
  have h := c10_lowercase_x_preserved ['9', '8'] [' '] "UNIVERSITY AV W".data
    (by decide) (by decide) (by decide) (by decide) (by decide) (by decide)
    (by decide) (by decide)
  have e1 : (⟨['9', '8'] ++ 'x' :: ([' '] ++ "UNIVERSITY AV W".data)⟩ : String) =
      "98x UNIVERSITY AV W" := by decide
  have e2 : (⟨['9', '8'] ++ 'x' :: ' ' :: "UNIVERSITY AV W".data⟩ : String) ++
      ", Saint Paul, MN" = "98x UNIVERSITY AV W, Saint Paul, MN" := by decide
  rw [e1, e2] at h
  exact h

end CrimeApp
